import Mathlib

/-!
Verification development for the `fantasy` repository: a pipeline that scrapes
FantasyPros ADP / ECR / season-stat tables, normalizes and joins them, and
scores the two predictors against final season ranks.

The Python sources are shallowly embedded here:
  * strings are `String` / `List Char` (ASCII fragment of Python `str`),
  * pandas numeric cells are `Cell` (a rational, a raw string, or NaN),
  * dataframes are either column-major `Table`s (for the scraping-side
    normalizers whose schema is open) or typed row lists (for the analysis
    side whose schema is fixed by the cleaners),
  * Python floats are modelled by `ℚ` (the claims never depend on rounding),
  * functions that can `raise` return `Except String`.
Each definition cites the Python function and lines it embeds.
-/

namespace Fantasy

/-! ## Character-level helpers (ASCII fragments of Python's `re` and `str`) -/

/-- Python `\s` whitespace class restricted to ASCII: space, tab, newline,
carriage return, vertical tab, form feed. -/
def pyIsSpace (c : Char) : Bool :=
  c = ' ' || c = '\t' || c = '\n' || c = '\r' || c = Char.ofNat 11 || c = Char.ofNat 12

/-- ASCII letter, i.e. the `A-Za-z` ranges of the regexes. -/
def isAsciiAlpha (c : Char) : Bool :=
  ('a' ≤ c && c ≤ 'z') || ('A' ≤ c && c ≤ 'Z')

/-- ASCII digit `0-9`. -/
def isAsciiDigit (c : Char) : Bool := '0' ≤ c && c ≤ '9'

/-- Python `\w` word-character class (ASCII fragment): letters, digits, `_`. -/
def isWordChar (c : Char) : Bool := isAsciiAlpha c || isAsciiDigit c || c = '_'

/-- ASCII lowering, the fragment of Python `str.lower` the pipeline exercises.
Spelled as an explicit table over the 26 uppercase letters so that every proof
about it is by case analysis. -/
def lowerChar (c : Char) : Char :=
  match c with
  | 'A' => 'a' | 'B' => 'b' | 'C' => 'c' | 'D' => 'd' | 'E' => 'e' | 'F' => 'f'
  | 'G' => 'g' | 'H' => 'h' | 'I' => 'i' | 'J' => 'j' | 'K' => 'k' | 'L' => 'l'
  | 'M' => 'm' | 'N' => 'n' | 'O' => 'o' | 'P' => 'p' | 'Q' => 'q' | 'R' => 'r'
  | 'S' => 's' | 'T' => 't' | 'U' => 'u' | 'V' => 'v' | 'W' => 'w' | 'X' => 'x'
  | 'Y' => 'y' | 'Z' => 'z'
  | c => c

/-- Case-sensitive list-prefix test. -/
def isPre : List Char → List Char → Bool
  | [], _ => true
  | _ :: _, [] => false
  | a :: as, b :: bs => a = b && isPre as bs

/-- Word-boundary test `\b` between two (optional) neighbouring characters:
true iff exactly one side is a word character (a missing side counts as
non-word). -/
def wordOpt : Option Char → Bool
  | none => false
  | some c => isWordChar c

def boundary (a b : Option Char) : Bool := wordOpt a != wordOpt b

/-! ## `clean_name` (compare_adp_vs_ecr.py lines 99-111)

`clean_name` normalizes player names for joins.  Its five regex stages are
embedded one by one below; the NaN guard (`if pd.isna(s): return ""`) is
`clean_name_opt`. -/

/-- Matcher for the part of `\s+\(.*?\)$` after the opening parenthesis has
been consumed: all remaining characters except the last are non-newline
(`.` does not match `\n`) and the last is `)` (anchored by `$`). -/
def parenBody : List Char → Bool
  | [] => false
  | [c] => c = ')'
  | c :: rest => c ≠ '\n' && parenBody rest

/-- Matcher for `\(.*?\)$` against a whole suffix. -/
def parenAfterOpen : List Char → Bool
  | '(' :: rest => parenBody rest
  | _ => false

/-- After one whitespace character has been consumed, skip further `\s`
characters and require `\(.*?\)$` on the remainder. -/
def spacesThenParen : List Char → Bool
  | [] => false
  | c :: rest => if pyIsSpace c then spacesThenParen rest else parenAfterOpen (c :: rest)

/-- Stage 1 of `clean_name`: `re.sub(r"\s+\(.*?\)$", "", s)`.  The (unique
possible) match runs from the leftmost whitespace run that is followed by an
opening parenthesis whose group closes at the end of the string; everything
from there on is deleted. -/
def stripParenLazy : List Char → List Char
  | [] => []
  | c :: rest =>
    if pyIsSpace c && spacesThenParen rest then [] else c :: stripParenLazy rest

/-- Matcher for `D/?ST$` (case-insensitive) against a whole suffix. -/
def dstTail (l : List Char) : Bool :=
  l.map lowerChar = ['d', 's', 't'] || l.map lowerChar = ['d', '/', 's', 't']

/-- After one whitespace character, skip further `\s` and require `D/?ST$`. -/
def spacesThenDst : List Char → Bool
  | [] => false
  | c :: rest => if pyIsSpace c then spacesThenDst rest else dstTail (c :: rest)

/-- Stage 2 of `clean_name`: `re.sub(r"\s+D/?ST$", "", s, flags=re.I)`. -/
def stripDst : List Char → List Char
  | [] => []
  | c :: rest =>
    if pyIsSpace c && spacesThenDst rest then [] else c :: stripDst rest

/-- Case-insensitively match the literal token `tok` at the head of `l`,
returning the remainder on success. -/
def tryTok : List Char → List Char → Option (List Char)
  | [], l => some l
  | _ :: _, [] => none
  | t :: ts, c :: cs => if lowerChar c = lowerChar t then tryTok ts cs else none

/-- The alternation `JR\.?|SR\.?|III|II` in the order the regex engine tries
it: each branch greedy in its optional dot. -/
def suffixTokens : List (List Char) :=
  [['j', 'r', '.'], ['j', 'r'], ['s', 'r', '.'], ['s', 'r'],
   ['i', 'i', 'i'], ['i', 'i']]

/-- Try each token of the alternation at the head of `l`; a branch succeeds
only if the trailing `\b` holds between the last matched character and the
following one.  Returns the match length and the remainder. -/
def firstTokAt (l : List Char) : List (List Char) → Option (Nat × List Char)
  | [] => none
  | tok :: toks =>
    match tryTok tok l with
    | some rest =>
      if boundary ((l.take tok.length).getLast?) rest.head? then
        some (tok.length, rest)
      else firstTokAt l toks
    | none => firstTokAt l toks

/-- Full match attempt for `\b(JR\.?|SR\.?|III|II)\b` at the current
position, `prev` being the character just before it. -/
def tokenSearch (prev : Option Char) (l : List Char) : Option (Nat × List Char) :=
  match l with
  | [] => none
  | c :: _ => if boundary prev (some c) then firstTokAt l suffixTokens else none

/-- Scan of stage 3: delete every (non-overlapping, leftmost-first) match of
`\b(JR\.?|SR\.?|III|II)\b`, case-insensitively.  Fuel equals the remaining
length, so the recursion is structural. -/
def removeTokensGo : Nat → Option Char → List Char → List Char
  | 0, _, l => l
  | _ + 1, _, [] => []
  | fuel + 1, prev, c :: rest =>
    match tokenSearch prev (c :: rest) with
    | some (n, after) => removeTokensGo fuel (((c :: rest).take n).getLast?) after
    | none => c :: removeTokensGo fuel (some c) rest

/-- Stage 3 of `clean_name`:
`re.sub(r"\b(JR\.?|SR\.?|III|II)\b", "", s, flags=re.I)`. -/
def removeSuffixTokens (l : List Char) : List Char :=
  removeTokensGo l.length none l

/-- The character class `[A-Za-z '\-]` kept by stage 4. -/
def allowedChar (c : Char) : Bool :=
  isAsciiAlpha c || c = ' ' || c = Char.ofNat 39 || c = '-'

/-- Stage 4 of `clean_name`: `re.sub(r"[^A-Za-z '\-]", "", s)`. -/
def filterAllowed (l : List Char) : List Char := l.filter allowedChar

/-- Scan of stage 5a (`re.sub(r"\s+", " ", s)`): a run of whitespace becomes
one space; the flag records whether the previous character was whitespace. -/
def collapseGo : Bool → List Char → List Char
  | _, [] => []
  | prevSpace, c :: rest =>
    if pyIsSpace c then
      if prevSpace then collapseGo true rest else ' ' :: collapseGo true rest
    else c :: collapseGo false rest

def collapseSpaces (l : List Char) : List Char := collapseGo false l

/-- Remove trailing whitespace (the right half of Python `str.strip`),
keeping the list a prefix of the input. -/
def dropTrailingSpaces : List Char → List Char
  | [] => []
  | c :: rest =>
    match dropTrailingSpaces rest with
    | [] => if pyIsSpace c then [] else [c]
    | r => c :: r

/-- Python `str.strip()`. -/
def stripEnds (l : List Char) : List Char :=
  dropTrailingSpaces (l.dropWhile pyIsSpace)

/-- Python `str.lower()` (ASCII fragment). -/
def lowerAll (l : List Char) : List Char := l.map lowerChar

/-- The whole `clean_name` pipeline on character lists, stages in source
order: strip trailing parenthetical, strip trailing `D/ST`, drop whole-word
generational suffixes, restrict the character set, collapse whitespace,
strip, lowercase. -/
def cleanChars (l : List Char) : List Char :=
  lowerAll (stripEnds (collapseSpaces (filterAllowed
    (removeSuffixTokens (stripDst (stripParenLazy l))))))

/-- `clean_name` on strings (compare_adp_vs_ecr.py lines 99-111). -/
def clean_name (s : String) : String := String.mk (cleanChars s.data)

/-- `clean_name` including the `pd.isna` guard: a missing name maps to `""`. -/
def clean_name_opt : Option String → String
  | none => ""
  | some s => clean_name s

example : clean_name "Patriots D/ST" = "patriots" := by decide
example : clean_name "A. Back (KC)" = "a back" := by decide
example : clean_name "Robert Griffin III" = "robert griffin" := by decide
example : clean_name "J2R" = "jr" := by decide
example : clean_name "jr" = "" := by decide

/-! ## Cells, numeric parsing, and column-major tables -/

/-- ASCII raising, the fragment of Python `str.upper` the pipeline uses. -/
def upperChar (c : Char) : Char :=
  match c with
  | 'a' => 'A' | 'b' => 'B' | 'c' => 'C' | 'd' => 'D' | 'e' => 'E' | 'f' => 'F'
  | 'g' => 'G' | 'h' => 'H' | 'i' => 'I' | 'j' => 'J' | 'k' => 'K' | 'l' => 'L'
  | 'm' => 'M' | 'n' => 'N' | 'o' => 'O' | 'p' => 'P' | 'q' => 'Q' | 'r' => 'R'
  | 's' => 'S' | 't' => 'T' | 'u' => 'U' | 'v' => 'V' | 'w' => 'W' | 'x' => 'X'
  | 'y' => 'Y' | 'z' => 'Z'
  | c => c

def upperStr (s : String) : String := String.mk (s.data.map upperChar)

def lowerStr (s : String) : String := String.mk (s.data.map lowerChar)

/-- Case-insensitive (ASCII) string equality, e.g. `re.fullmatch(tok, c, re.I)`
for a literal token, or `c.upper() == TOK`. -/
def ciEqStr (a b : String) : Bool := lowerStr a = lowerStr b

/-- Plain substring test (scan `tryTok` at every position). -/
def containsAtSome (w : List Char) : List Char → Bool
  | [] => (w = [])
  | c :: rest => (tryTok w (c :: rest)).isSome || containsAtSome w rest

/-- Case-insensitive substring test: Python `w in s` on uppercased/lowercased
strings.  `w` must be given lowercase. -/
def containsCI (w s : String) : Bool := containsAtSome w.data s.data

/-- Case-sensitive substring test, Python `w in s`. -/
def containsSubstr (w s : String) : Bool :=
  containsAtSome w.data s.data

/-- Lexicographic strictly-less on character lists by code point — Python's
`str` comparison (ASCII fragment). -/
def listLtb : List Char → List Char → Bool
  | [], [] => false
  | [], _ :: _ => true
  | _ :: _, [] => false
  | a :: as, b :: bs => a < b || (a = b && listLtb as bs)

def strLtb (a b : String) : Bool := listLtb a.data b.data

def strLeb (a b : String) : Bool := !(strLtb b a)

/-- A pandas cell: a numeric value (floats are modelled by `ℚ`), a raw
string, or NaN/missing. -/
inductive Cell where
  | num (q : ℚ)
  | str (s : String)
  | na
  deriving DecidableEq

/-- Digits to a natural number (empty list reads as 0, as in `int("0" + d)`). -/
def natOfDigits (l : List Char) : Nat :=
  l.foldl (fun acc c => acc * 10 + (c.toNat - '0'.toNat)) 0

/-- Unsigned decimal literal: digits with at most one dot, at least one digit
(`"1"`, `"1.5"`, `"1."`, `".5"`; not `"."` or `""`). -/
def parseUnsigned (l : List Char) : Option ℚ :=
  let intPart := l.takeWhile isAsciiDigit
  let rest := l.dropWhile isAsciiDigit
  match rest with
  | [] => if intPart = [] then none else some (natOfDigits intPart : ℚ)
  | '.' :: frac =>
    if frac.all isAsciiDigit && (intPart ≠ [] || frac ≠ []) then
      some ((natOfDigits intPart : ℚ) + (natOfDigits frac : ℚ) / (10 ^ frac.length))
    else none
  | _ => none

/-- The decimal-literal fragment of Python float parsing used by
`pd.to_numeric`: optional surrounding whitespace, optional sign, decimal
digits with an optional point.  (Exponents and `inf`/`nan` literals are
outside the model; they do not occur in these tables.) -/
def parsePyNumber (s : String) : Option ℚ :=
  match stripEnds s.data with
  | '+' :: r => parseUnsigned r
  | '-' :: r => (parseUnsigned r).map Neg.neg
  | r => parseUnsigned r

/-- Elementwise `pd.to_numeric(x, errors="coerce")`: numbers pass through,
missing stays missing, strings parse or become NaN — never an error. -/
def toNumericCoerce : Cell → Cell
  | .num q => .num q
  | .na => .na
  | .str s =>
    match parsePyNumber s with
    | some q => .num q
    | none => .na

/-- Elementwise `pd.to_numeric(x, errors="raise")` (the pandas default),
for contrast: an unparseable string raises. -/
def toNumericRaise : Cell → Except String Cell
  | .num q => .ok (.num q)
  | .na => .ok .na
  | .str s =>
    match parsePyNumber s with
    | some q => .ok (.num q)
    | none => .error ("Unable to parse string " ++ s)

example : toNumericCoerce (.str " 10 ") = .num 10 := by decide
example : toNumericCoerce (.str "-3") = .num (-3) := by decide
example : toNumericCoerce (.str "BYE") = .na := by decide
example : (parsePyNumber "10.5").isSome = true := by decide

/-- One named dataframe column. -/
structure Col where
  name : String
  cells : List Cell
  deriving DecidableEq

/-- A dataframe, column-major (pandas stores columns; all scraped frames are
rectangular). -/
abbrev Table := List Col

def hasCol (t : Table) (n : String) : Bool := t.any (fun c => c.name = n)

def nrows (t : Table) : Nat := ((t.head?).map (fun c => c.cells.length)).getD 0

/-- pandas `df.empty`: no columns or no rows. -/
def tblEmpty (t : Table) : Bool := t.isEmpty || nrows t = 0

/-- `df.rename(columns=m)`: every column whose name is a key of `m` gets the
mapped name. -/
def renameCols (m : List (String × String)) (t : Table) : Table :=
  t.map (fun c =>
    match m.lookup c.name with
    | some n => { c with name := n }
    | none => c)

/-- `df[n] = cells`: replace the column if present, else append it. -/
def setCol (n : String) (cs : List Cell) (t : Table) : Table :=
  if hasCol t n then
    t.map (fun c => if c.name = n then { c with cells := cs } else c)
  else t ++ [⟨n, cs⟩]

/-- `df[names]`: select columns by name, in the given order. -/
def selectCols (names : List String) (t : Table) : Table :=
  names.filterMap (fun n => t.find? (fun c => c.name = n))

/-- The `core + other` reordering shared by all three normalizers: canonical
columns that exist come first in canonical order, all remaining columns
follow in their original order. -/
def reorderCore (coreNames : List String) (t : Table) : Table :=
  let core := coreNames.filter (hasCol t)
  selectCols core t ++ t.filter (fun c => !(core.contains c.name))

/-- `flatten_columns` on an already-flat frame: `str(c).strip()` each column
label (the MultiIndex branch never applies to the single-header tables
modelled here). -/
def flatten_columns (t : Table) : Table :=
  t.map (fun c => { c with name := String.mk (stripEnds c.name.data) })

/-! ### Column-discovery regexes shared by the normalizers -/

/-- `re.search(r"\bw\b", s, re.I)` for a literal word `w` (given lowercase):
scan every position for a case-insensitive occurrence with word boundaries on
both sides. -/
def containsWordGo (w : List Char) (prev : Option Char) : List Char → Bool
  | [] => false
  | c :: rest =>
    (boundary prev (some c) &&
      (match tryTok w (c :: rest) with
       | some after => boundary (((c :: rest).take w.length).getLast?) after.head?
       | none => false)) ||
    containsWordGo w (some c) rest

def containsWord (w s : String) : Bool := containsWordGo w.data none s.data

/-- `re.search(r"\bplayer\b|\bname\b", c, re.I)` — the player-name column
test used by all three normalizers. -/
def playerNameSearch (c : String) : Bool :=
  containsWord "player" c || containsWord "name" c

/-- `re.search(r"\bpos(ition)?\b", c, re.I)` (the stats normalizer). -/
def posSearchStats (c : String) : Bool :=
  containsWord "position" c || containsWord "pos" c

/-- `re.fullmatch(r"pos(ition)?", c, re.I)` (the ADP/ECR normalizers). -/
def posFullmatch (c : String) : Bool :=
  ciEqStr c "pos" || ciEqStr c "position"

/-- `re.fullmatch(r"team(\s*\(bye\))?", c, re.I)`. -/
def teamByeFullmatch (c : String) : Bool :=
  ciEqStr c "team" ||
  (match (lowerStr c).data with
   | 't' :: 'e' :: 'a' :: 'm' :: rest =>
     rest.dropWhile pyIsSpace = ['(', 'b', 'y', 'e', ')']
   | _ => false)

/-- Helper for `\bfantasy\s*points\b`-style phrases: at the scan position,
match `w1`, skip `\s*`, match `w2`, and require boundaries at both ends. -/
def phraseAt (w1 w2 : List Char) (prev : Option Char) (l : List Char) : Bool :=
  boundary prev l.head? &&
  (match tryTok w1 l with
   | some mid =>
     let mid2 := mid.dropWhile pyIsSpace
     (match tryTok w2 mid2 with
      | some after => boundary w2.getLast? after.head?
      | none => false)
   | none => false)

def containsPhraseGo (w1 w2 : List Char) (prev : Option Char) : List Char → Bool
  | [] => false
  | c :: rest => phraseAt w1 w2 prev (c :: rest) || containsPhraseGo w1 w2 (some c) rest

/-- `re.search(r"\bfpts\b|\bfantasy\s*points\b", c, re.I)`. -/
def fptsSearch (c : String) : Bool :=
  containsWord "fpts" c || containsPhraseGo "fantasy".data "points".data none c.data

/-- At a position, match `fpts/?g` (greedy in the slash) with end boundary. -/
def fptsgAt (prev : Option Char) (l : List Char) : Bool :=
  boundary prev l.head? &&
  ((match tryTok ['f', 'p', 't', 's', '/', 'g'] l with
    | some after => boundary (some 'g') after.head?
    | none => false) ||
   (match tryTok ['f', 'p', 't', 's', 'g'] l with
    | some after => boundary (some 'g') after.head?
    | none => false))

/-- After `fantasy\s*points`, search `.*game\b` (no newline crossing): any
later occurrence of `game` with a trailing boundary. -/
def gameLater : Option Char → List Char → Bool
  | _, [] => false
  | prev, c :: rest =>
    if c = '\n' then false
    else
      (boundary prev (some c) &&
        (match tryTok ['g', 'a', 'm', 'e'] (c :: rest) with
         | some after => boundary (some 'e') after.head?
         | none => false)) ||
      gameLater (some c) rest

def fptsPerGameAt (prev : Option Char) (l : List Char) : Bool :=
  fptsgAt prev l ||
  (boundary prev l.head? &&
    (match tryTok "fantasy".data l with
     | some mid =>
       (match tryTok "points".data (mid.dropWhile pyIsSpace) with
        | some after => gameLater (some 's') after
        | none => false)
     | none => false))

def fptsPerGameGo (prev : Option Char) : List Char → Bool
  | [] => false
  | c :: rest => fptsPerGameAt prev (c :: rest) || fptsPerGameGo (some c) rest

/-- `re.search(r"\bfpts/?g\b|\bfantasy\s*points.*game\b", c, re.I)`. -/
def fptsgSearch (c : String) : Bool := fptsPerGameGo none c.data

/-! ## `normalize_stats_df` (pull_hist_stats.py lines 112-158) -/

/-- Rename the first column satisfying `p` to `new` (the
`next((c for c in out.columns if ...), None)` / conditional-rename idiom; a
column already carrying the canonical name is left as is, which renaming to
the same name also does). -/
def renameFirstMatch (p : String → Bool) (new : String) (t : Table) : Table :=
  match t.find? (fun c => p c.name) with
  | some c => renameCols [(c.name, new)] t
  | none => t

/-- Coerce the named columns (`pd.to_numeric(..., errors="coerce")` loop). -/
def coerceCols (p : String → Bool) (t : Table) : Table :=
  t.map (fun c =>
    if p c.name then { c with cells := c.cells.map toNumericCoerce } else c)

/-- Append/overwrite the provenance columns `season`, `scoring` (lowered),
`pos_slug` (uppered), `source_url` shared by all three normalizers. -/
def addContextCols (year : Int) (scoring pos url : String) (t : Table) : Table :=
  let t1 := setCol "season" (List.replicate (nrows t) (.num (year : ℚ))) t
  let t2 := setCol "scoring" (List.replicate (nrows t1) (.str (lowerStr scoring))) t1
  let t3 := setCol "pos_slug" (List.replicate (nrows t2) (.str (upperStr pos))) t2
  setCol "source_url" (List.replicate (nrows t3) (.str url)) t3

/-- `re.fullmatch(r"g|games", c, re.I)`. -/
def gamesFullmatch (c : String) : Bool := ciEqStr c "g" || ciEqStr c "games"

/-- `normalize_stats_df(df, pos_slug, year, scoring, source_url)`
(pull_hist_stats.py lines 112-158): discover and canonically rename the
player/team/pos/games and fantasy-points columns, coerce the designated
numeric columns with `errors="coerce"`, add context columns, and put the core
columns first. -/
def normalize_stats_df (t : Table) (pos_slug : String) (year : Int)
    (scoring url : String) : Table :=
  let t1 := renameFirstMatch playerNameSearch "player_name" t
  let t2 := renameFirstMatch (containsWord "team") "team" t1
  let t3 := renameFirstMatch posSearchStats "pos" t2
  let t4 := renameFirstMatch gamesFullmatch "games" t3
  let t5 := renameFirstMatch fptsSearch "fantasy_points" t4
  let t6 := renameFirstMatch fptsgSearch "fantasy_points_per_game" t5
  let t7 := coerceCols
    (fun n => n = "fantasy_points" || n = "fantasy_points_per_game" || n = "games") t6
  let t8 := addContextCols year scoring pos_slug url t7
  reorderCore ["player_name", "team", "pos", "games", "fantasy_points",
    "fantasy_points_per_game", "season", "scoring", "pos_slug", "source_url"] t8

/-! ## `normalize_adp_df` (pull_hist_adp_ecr.py lines 132-181) -/

/-- The `ren_map` elif-chain over `cu = c.upper()` (lines 145-166): map a
per-source ADP header to its canonical `adp_*` name. -/
def adpCanonName (n : String) : String :=
  if ciEqStr n "avg" then "adp_avg"
  else if ciEqStr n "espn" then "adp_espn"
  else if ciEqStr n "yahoo" then "adp_yahoo"
  else if ciEqStr n "sleeper" then "adp_sleeper"
  else if ciEqStr n "cbs" then "adp_cbs"
  else if ciEqStr n "nfl" then "adp_nfl"
  else if ciEqStr n "rtsports" then "adp_rtsports"
  else if containsCI "fantrax" (lowerStr n) then "adp_fantrax"
  else if ciEqStr n "adp" || ciEqStr n "avgadp" then "adp_avg"
  else n

/-- `normalize_adp_df(df, pos, scoring, year, url)` (pull_hist_adp_ecr.py
lines 132-181). -/
def normalize_adp_df (t : Table) (pos scoring : String) (year : Int)
    (url : String) : Table :=
  let t1 := renameFirstMatch playerNameSearch "player_name" t
  let t2 := renameFirstMatch teamByeFullmatch "team" t1
  let t3 := renameFirstMatch posFullmatch "pos" t2
  let t4 := t3.map (fun c => { c with name := adpCanonName c.name })
  let t5 := coerceCols (fun n => isPre "adp_".data n.data) t4
  let t6 := addContextCols year scoring pos url t5
  reorderCore ["player_name", "team", "pos", "adp_espn", "adp_yahoo", "adp_avg",
    "season", "scoring", "pos_slug", "source_url"] t6

/-! ## `normalize_ecr_df` (pull_hist_adp_ecr.py lines 423-465) -/

/-- `re.fullmatch(r"rk|rank", c, re.I)`. -/
def rkFullmatch (c : String) : Bool := ciEqStr c "rk" || ciEqStr c "rank"

/-- `normalize_ecr_df(df, pos, scoring, year, url)` (pull_hist_adp_ecr.py
lines 423-465): flatten labels, discover name/team/pos/rank/ecr/avg columns,
rename (`AVG` standing in for `ecr` only when no `ECR` column exists), derive
`ecr_rank = 1..N` if absent, coerce `ecr_rank`/`ecr`, add context columns,
reorder. -/
def normalize_ecr_df (t : Table) (pos scoring : String) (year : Int)
    (url : String) : Table :=
  let t0 := flatten_columns t
  let hasEcrCol := (t0.find? (fun c => ciEqStr c.name "ecr")).isSome
  let t1 := renameFirstMatch playerNameSearch "player_name" t0
  let t2 := renameFirstMatch teamByeFullmatch "team" t1
  let t3 := renameFirstMatch posFullmatch "pos" t2
  let t4 := renameFirstMatch rkFullmatch "ecr_rank" t3
  let t5 := renameFirstMatch (fun n => ciEqStr n "ecr") "ecr" t4
  let t6 := if hasEcrCol then t5
            else renameFirstMatch (fun n => ciEqStr n "avg") "ecr" t5
  let t7 := if hasCol t6 "ecr_rank" then t6
            else setCol "ecr_rank"
              ((List.range (nrows t6)).map (fun i => .num ((i + 1 : Nat) : ℚ))) t6
  let t8 := coerceCols (fun n => n = "ecr_rank" || n = "ecr") t7
  let t9 := addContextCols year scoring pos url t8
  reorderCore ["player_name", "team", "pos", "ecr_rank", "ecr", "season",
    "scoring", "pos_slug", "source_url"] t9

/-! ## Table pickers and `fetch_ecr` (pull_hist_adp_ecr.py) -/

/-- `re.sub(r"[^A-Z0-9/]", "", c.upper())` — the header-token normalization
of `pick_adp_table` (and `pick_fpts_table`). -/
def normHeader (n : String) : String :=
  String.mk ((upperStr n).data.filter
    (fun c => ('A' ≤ c && c ≤ 'Z') || isAsciiDigit c || c = '/'))

/-- Tokens accepted by `pick_adp_table` (line 121). -/
def adpTokens : List String :=
  ["ESPN", "YAHOO", "SLEEPER", "CBS", "NFL", "RTSPORTS", "FANTRAX", "AVG", "ADP"]

/-- `pick_adp_table(tables)` (pull_hist_adp_ecr.py lines 118-130): among the
tables whose flattened, normalized headers contain one of the ADP tokens as a
substring, keep the widest (most columns); `None` becomes the empty table.
Note there is no row-count requirement of any kind here. -/
def pick_adp_table (tables : List Table) : Table :=
  (tables.foldl
    (fun (acc : Option Table × Int) df =>
      let df2 := flatten_columns df
      let norm := df2.map (fun c => normHeader c.name)
      if norm.any (fun c => adpTokens.any (fun tok => containsSubstr tok c)) then
        if (df2.length : Int) > acc.2 then (some df2, (df2.length : Int)) else acc
      else acc)
    (none, -1)).1.getD []

/-- The shared cheatsheet-table picker of `_pick_ecr_table` /
`_parse_cheatsheet_table_html` (lines 237-257 and 362-371): a table must have
a PLAYER/NAME column and a RANK/RK/ECR/TIER/AVG indicator column; the widest
such table wins. -/
def pick_ecr_table (tables : List Table) : Table :=
  (tables.foldl
    (fun (acc : Option Table × Int) df =>
      let df2 := flatten_columns df
      let colsUp := df2.map (fun c => upperStr c.name)
      let hasPlayer := colsUp.any (fun c => containsSubstr "PLAYER" c || containsSubstr "NAME" c)
      let hasIndicator := colsUp.any (fun c =>
        containsSubstr "RANK" c || c = "RK" || containsSubstr "ECR" c ||
        containsSubstr "TIER" c || c = "AVG")
      if hasPlayer && hasIndicator then
        if (df2.length : Int) > acc.2 then (some df2, (df2.length : Int)) else acc
      else acc)
    (none, -1)).1.getD []

/-- `_build_ecr_attempt_urls(year, scoring, pos)` (lines 224-234): one
overall cheatsheet URL; `pos` is deliberately unused. -/
def build_ecr_attempt_urls (year : Int) (scoring : String) : List String :=
  let s := upperStr scoring
  let path :=
    if s = "PPR" then "/nfl/rankings/ppr-cheatsheets.php"
    else if s = "HALF" || s = "HALF_PPR" || s = "HALF-POINT-PPR" then
      "/nfl/rankings/half-point-ppr-cheatsheets.php"
    else "/nfl/rankings/ppr-cheatsheets.php"
  ["https://www.fantasypros.com" ++ path ++ "?year=" ++ toString year]

/-- An HTTP response: status code, final resolved URL, body text. -/
structure HttpResp where
  status : Nat
  url : String
  text : String

/-- The effectful collaborators of `fetch_ecr`, supplied as an environment:
page fetch, CSV-link discovery (`_find_csv_link`), CSV download, CSV parsing
(`pd.read_csv`), and the HTML-table fallback
(`_parse_cheatsheet_table_html`, whose bs4/`pd.read_html` internals are
outside the embedding). -/
structure EcrEnv where
  get : String → HttpResp
  findCsvLink : String → Option String
  getCsv : String → HttpResp
  readCsv : String → Table
  parseCheatsheet : String → Table

/-- Body of the `for url in ...` loop of `fetch_ecr` (lines 397-418):
skip on HTTP error or login-wall redirect; prefer the CSV export when its
download succeeds, has content, and parses to a non-empty frame; otherwise
fall back to parsing the HTML table; otherwise try the next URL; return
`([], "")` when everything fails. -/
def fetchEcrGo (env : EcrEnv) : List String → Table × String
  | [] => ([], "")
  | url :: rest =>
    let resp := env.get url
    if resp.status ≥ 400 || containsSubstr "account/login" resp.url then
      fetchEcrGo env rest
    else
      let csvStep : Option (Table × String) :=
        match env.findCsvLink resp.text with
        | some csvUrl =>
          let r2 := env.getCsv csvUrl
          if r2.status < 400 && r2.text ≠ "" then
            let dfCsv := env.readCsv r2.text
            if !tblEmpty dfCsv then some (dfCsv, csvUrl) else none
          else none
        | none => none
      match csvStep with
      | some res => res
      | none =>
        let dfTbl := env.parseCheatsheet resp.text
        if !tblEmpty dfTbl then (dfTbl, url) else fetchEcrGo env rest

/-- `fetch_ecr(year, scoring, pos, sess)` (pull_hist_adp_ecr.py lines
391-418). -/
def fetch_ecr (env : EcrEnv) (year : Int) (scoring pos : String) : Table × String :=
  fetchEcrGo env (build_ecr_attempt_urls year scoring)

/-! ## `clean_stats_overall` (utils/cleaners.py lines 65-97)

The greedy parenthetical strip `str.replace(r"\s*\(.*\)", "", regex=True)`
differs from `clean_name`'s lazy anchored one: it matches from the leftmost
eligible position through the **last** reachable `)` (greedy `.*`, which does
not cross a newline), anywhere in the string. -/

/-- Walk the characters after an opening parenthesis and return the remainder
after the last `)` reachable without crossing a newline. -/
def findCloseGreedy : List Char → Option (List Char)
  | [] => none
  | c :: rest =>
    if c = '\n' then none
    else
      match findCloseGreedy rest with
      | some r => some r
      | none => if c = ')' then some rest else none

/-- Match `\s*\(.*\)` at the current position: optional whitespace, an
opening parenthesis, then greedily through the last reachable `)`. Returns
the remainder after the match. -/
def greedyParenAt (l : List Char) : Option (List Char) :=
  match l.dropWhile pyIsSpace with
  | '(' :: after => findCloseGreedy after
  | _ => none

def stripParenGreedyGo : Nat → List Char → List Char
  | 0, l => l
  | _ + 1, [] => []
  | fuel + 1, c :: rest =>
    match greedyParenAt (c :: rest) with
    | some after => stripParenGreedyGo fuel after
    | none => c :: stripParenGreedyGo fuel rest

/-- `re.sub`-style repeated application of `\s*\(.*\)`. -/
def stripParenGreedy (l : List Char) : List Char := stripParenGreedyGo l.length l

example : stripParenGreedy "A. Back (KC)".data = "A. Back".data := by decide

/-- An input record of the overall-stats cleaner: raw player-name text and
the raw fantasy-points cell. -/
structure StatsInRow where
  player : String
  pts : Cell
  deriving DecidableEq

/-- An output record of the overall-stats cleaner. -/
structure OverallRow where
  player_name : String
  final_rank : Nat
  deriving DecidableEq

/-- `pd.to_numeric(df[pts_col], errors="coerce").fillna(0)` on one cell. -/
def ptsValue (c : Cell) : ℚ :=
  match toNumericCoerce c with
  | .num q => q
  | _ => 0

/-- pandas `Series.rank(ascending=False, method="first").astype(int)`:
row `i` is ranked `1 +` the number of rows that either score strictly higher
or score equally and appear earlier — the stable descending rank with
first-seen-wins tie-break. -/
def rankFirstDesc (ps : List ℚ) : List Nat :=
  ps.enum.map (fun x =>
    1 + ps.enum.countP (fun y => decide (y.2 > x.2) || (y.2 == x.2 && y.1 < x.1)))

/-- `clean_stats_overall(df)` restricted to its fantasy-points branch
(utils/cleaners.py lines 72-97, the branch taken whenever
`infer_points_column` finds a points column): clean the player names, rank by
descending coerced points with `method="first"`, and sort the output by the
new `final_rank` (stable `kind="mergesort"`).  The rank-column and
alphabetical fallback branches (lines 99-113) are not exercised by any claim
and are not modelled. -/
def clean_stats_overall_pts (rows : List StatsInRow) : List OverallRow :=
  let names := rows.map (fun r => String.mk (stripParenGreedy r.player.data))
  let ranks := rankFirstDesc (rows.map (fun r => ptsValue r.pts))
  let out := (names.zip ranks).map (fun p => OverallRow.mk p.1 p.2)
  List.insertionSort (fun a b => a.final_rank ≤ b.final_rank) out

/-! ## `merge_all` (utils/merge.py lines 4-43)

Input frames carry `player_name` plus their one metric column; a `year`
column may or may not be present in each frame, which is schema-level
information modelled by the three Booleans `ay`/`ey`/`sy` (adp/ecr/stats
frame has a `year` column).  The join key includes `year` exactly when all
three frames have it (line 10); the merged frame has a `year` column exactly
when all three had one (joined on it) or exactly one had one (a column named
`year` survives the merge un-suffixed); with two the merge suffixes them to
`year_x`/`year_y` and no column named `year` exists. -/

structure AdpInRow where
  player_name : String
  year : Int
  espn_adp : ℚ
  deriving DecidableEq

structure EcrInRow where
  player_name : String
  year : Int
  ecr_rank : ℚ
  deriving DecidableEq

structure StatsRankRow where
  player_name : String
  year : Int
  final_rank : ℚ
  deriving DecidableEq

structure MergedRow where
  player_name : String
  year : Int
  espn_adp : ℚ
  ecr_rank : ℚ
  final_rank : ℚ
  adp_error : ℚ
  ecr_error : ℚ
  deriving DecidableEq

/-- `"year" in df.columns` for the merged frame (see the header comment). -/
def mergedHasYear (ay ey sy : Bool) : Bool :=
  (ay && ey && sy) || (ay && !ey && !sy) || (!ay && ey && !sy) || (!ay && !ey && sy)

/-- The two chained inner merges of lines 13-17 plus the error columns of
lines 19-20.  pandas' inner merge preserves left-frame order and, per left
row, right-frame order, so the result is this nested traversal.  The `year`
component of the key participates exactly when all three frames have it. -/
def joined (ay ey sy : Bool) (adp : List AdpInRow) (ecr : List EcrInRow)
    (stats : List StatsRankRow) : List MergedRow :=
  let useY := ay && ey && sy
  adp.flatMap (fun a =>
    (ecr.filter (fun e =>
        e.player_name = a.player_name && (!useY || e.year == a.year))).flatMap (fun e =>
      (stats.filter (fun s =>
          s.player_name = a.player_name && (!useY || s.year == a.year))).map (fun s =>
        { player_name := a.player_name
          year := if ay then a.year else if ey then e.year else s.year
          espn_adp := a.espn_adp
          ecr_rank := e.ecr_rank
          final_rank := s.final_rank
          adp_error := a.espn_adp - s.final_rank
          ecr_error := e.ecr_rank - s.final_rank })))

/-- The deterministic tie-break order of the re-rank (lines 28-29 / 36-38):
ascending lexicographic on `(final_rank, ecr_rank, espn_adp, player_name)`
(all four columns are always present in the merged frame). -/
def rerankLE (x y : MergedRow) : Bool :=
  decide (x.final_rank < y.final_rank) ||
  (x.final_rank == y.final_rank &&
    (decide (x.ecr_rank < y.ecr_rank) ||
      (x.ecr_rank == y.ecr_rank &&
        (decide (x.espn_adp < y.espn_adp) ||
          (x.espn_adp == y.espn_adp && strLeb x.player_name y.player_name)))))

/-- Reassign `final_rank := 1..N` along the current order and recompute both
error columns from the new rank (lines 30-32 / 39-41). -/
def assignRanks (g : List MergedRow) : List MergedRow :=
  g.enum.map (fun p =>
    { p.2 with
      final_rank := ((p.1 + 1 : Nat) : ℚ)
      adp_error := p.2.espn_adp - ((p.1 + 1 : Nat) : ℚ)
      ecr_error := p.2.ecr_rank - ((p.1 + 1 : Nat) : ℚ) })

/-- The `rerank` closure of lines 27-33: stable sort by the tie-break order,
then reassign ranks and errors. -/
def rerank (g : List MergedRow) : List MergedRow :=
  assignRanks (List.insertionSort (fun a b => rerankLE a b = true) g)

/-- `df.groupby("year")` visits groups in ascending key order. -/
def sortedYears (l : List MergedRow) : List Int :=
  List.insertionSort (fun a b => a ≤ b) ((l.map (fun r => r.year)).dedup)

/-- `merge_all(df_adp, df_ecr, df_stats)` (utils/merge.py lines 4-43). -/
def merge_all (ay ey sy : Bool) (adp : List AdpInRow) (ecr : List EcrInRow)
    (stats : List StatsRankRow) : List MergedRow :=
  let df := joined ay ey sy adp ecr stats
  if (df.map (fun r => r.final_rank)).Nodup then df
  else if mergedHasYear ay ey sy then
    (sortedYears df).flatMap (fun y => rerank (df.filter (fun r => r.year = y)))
  else rerank df

/-! ## `evaluate_one` (compare_adp_vs_ecr.py lines 235-277)

The merged frame handed to `evaluate_one` by `join_ecr_adp_final` always has
`ecr_rank` and `final_pos_rank` columns (the latter null-free after the
`dropna` on line 233); the three ADP rank columns exist only when the ADP
file had them, recorded schema-level by the `has*` flags.  Rank cells can be
NaN (`Option`).  `spearman_r` and `rmse_rank` are irrational-valued
statistics (a square root and a normalized covariance) and are outside the
rational model; every claim concerns the remaining fields, each of which is
computed independently per predictor. -/

structure EvalRow where
  season : Int
  scoring : String
  ecr_rank : Option ℚ
  adp_espn_rank : Option ℚ
  adp_yahoo_rank : Option ℚ
  adp_avg_rank : Option ℚ
  final_pos_rank : ℚ
  deriving DecidableEq

structure EvalDf where
  hasEspn : Bool
  hasYahoo : Bool
  hasAvg : Bool
  rows : List EvalRow

structure MetricRow where
  season : Int
  scoring : String
  pos_slug : String
  model : String
  mae_rank : Option ℚ
  topX : Nat
  hit_rate_topX : ℚ
  n_players : Nat
  deriving DecidableEq

/-- `TOPX_DEFAULTS` (compare_adp_vs_ecr.py line 15). -/
def TOPX_DEFAULTS : List (String × Nat) :=
  [("QB", 12), ("RB", 24), ("WR", 36), ("TE", 12), ("K", 12), ("DST", 12)]

/-- The `preds` dict of lines 240-246: `ECR` always, each ADP predictor only
when its rank column exists. -/
def predsOf (d : EvalDf) : List (String × (EvalRow → Option ℚ)) :=
  [("ECR", fun r => r.ecr_rank)] ++
  (if d.hasEspn then [("ADP_ESPN", fun r => r.adp_espn_rank)] else []) ++
  (if d.hasYahoo then [("ADP_YAHOO", fun r => r.adp_yahoo_rank)] else []) ++
  (if d.hasAvg then [("ADP_AVG", fun r => r.adp_avg_rank)] else [])

/-- `df.sort_values(col, ascending=True)` comparison on a nullable column:
values ascending, NaN last (`na_position="last"`). -/
def leOptNaLast (a b : Option ℚ) : Bool :=
  match a, b with
  | some x, some y => decide (x ≤ y)
  | some _, none => true
  | none, some _ => false
  | none, none => true

/-- `set(df.sort_values(col).head(topX).index)` — the index set of the first
`k` rows after sorting by the predictor column (rows are identified by their
position in the frame). -/
def topIdx (get : EvalRow → Option ℚ) (df : List EvalRow) (k : Nat) : Finset Nat :=
  (((List.insertionSort (fun x y => leOptNaLast (get x.2) (get y.2) = true)
      (df.enum)).take k).map (fun x => x.1)).toFinset

/-- `set(df.sort_values("final_pos_rank").head(topX).index)`. -/
def finalTopIdx (df : List EvalRow) (k : Nat) : Finset Nat :=
  (((List.insertionSort (fun x y => x.2.final_pos_rank ≤ y.2.final_pos_rank)
      (df.enum)).take k).map (fun x => x.1)).toFinset

/-- `err.abs().mean()` where `err = df[col] - df["final_pos_rank"]`:
pandas skips NaN; the mean of no values is NaN. -/
def maeOf (get : EvalRow → Option ℚ) (df : List EvalRow) : Option ℚ :=
  let errs := df.filterMap (fun r => (get r).map (fun v => |v - r.final_pos_rank|))
  if errs.isEmpty then none else some (errs.sum / (errs.length : ℚ))

/-- `evaluate_one(df, posU, topX_map)` (compare_adp_vs_ecr.py lines 235-277):
one metric row per available predictor; empty input gives an empty frame. -/
def evaluate_one (d : EvalDf) (posU : String) (topX_map : List (String × Nat)) :
    List MetricRow :=
  match d.rows with
  | [] => []
  | r0 :: _ =>
    let topX := (topX_map.lookup posU).getD 12
    (predsOf d).map (fun p =>
      let hit := ((topIdx p.2 d.rows topX) ∩ (finalTopIdx d.rows topX)).card
      { season := r0.season
        scoring := r0.scoring
        pos_slug := posU
        model := p.1
        mae_rank := maeOf p.2 d.rows
        topX := topX
        hit_rate_topX := (hit : ℚ) / (topX : ℚ)
        n_players := d.rows.length })

/-! ## `main` (compare_adp_vs_ecr.py lines 279-304)

The per-partition body (`join_ecr_adp_final` plus the surrounding
`try/except`) reads CSV files from disk; it is supplied as an environment
`jr` mapping a partition to either the merged frame or the message of the
exception it raised.  Printed lines and written files are collected as
data. -/

/-- `YEARS = list(range(2015, 2025))` (line 6). -/
def YEARS : List Int := (List.range 10).map (fun i => (2015 + i : Int))

/-- `SCORINGS` (line 7). -/
def SCORINGS : List String := ["ppr", "half"]

/-- `POSITIONS` (line 8). -/
def POSITIONS : List String := ["qb", "rb", "wr", "te", "k", "dst"]

/-- The partitions in loop order (`for y: for s: for p`). -/
def partitionList : List (Int × String × String) :=
  YEARS.flatMap (fun y => SCORINGS.flatMap (fun s => POSITIONS.map (fun p => (y, s, p))))

/-- `metrics.sort_values(["season","scoring","pos_slug","model"])` order. -/
def metricsLE (a b : MetricRow) : Bool :=
  decide (a.season < b.season) ||
  (a.season == b.season &&
    (strLtb a.scoring b.scoring ||
      (a.scoring == b.scoring &&
        (strLtb a.pos_slug b.pos_slug ||
          (a.pos_slug == b.pos_slug && strLeb a.model b.model)))))

structure RunOutput where
  messages : List String
  perSliceWrites : List String
  aggregate : Option (List MetricRow)

/-- The nested partition loop of lines 282-297, accumulating
`all_metrics`, printed lines, and per-slice CSV writes in order. -/
def mainLoop (jr : Int → String → String → Except String EvalDf) :
    List (Int × String × String) → List (List MetricRow) × List String × List String
  | [] => ([], [], [])
  | (y, s, p) :: rest =>
    match jr y s p with
    | .error e =>
      let r := mainLoop jr rest
      (r.1, ("[ERR] " ++ toString y ++ " " ++ s ++ " " ++ p ++ ": " ++ e) :: r.2.1, r.2.2)
    | .ok merged =>
      if merged.rows.isEmpty then
        let r := mainLoop jr rest
        (r.1, ("[SKIP] " ++ toString y ++ " " ++ s ++ " " ++ p ++ " (no merged rows)") :: r.2.1,
          r.2.2)
      else
        let met := evaluate_one merged (upperStr p) TOPX_DEFAULTS
        if met.isEmpty then mainLoop jr rest
        else
          let r := mainLoop jr rest
          (met :: r.1,
            ("[OK] " ++ toString y ++ " " ++ s ++ " " ++ p ++ ": " ++
              toString merged.rows.length ++ " rows, metrics computed") :: r.2.1,
            ("fp_metrics/merged_" ++ toString y ++ "_" ++ s ++ "_" ++ p ++ ".csv") :: r.2.2)

/-- `main()` (compare_adp_vs_ecr.py lines 279-304): run all partitions; if
any metrics were collected, write the sorted aggregate table, else print the
no-metrics line and write nothing. -/
def main (jr : Int → String → String → Except String EvalDf) : RunOutput :=
  let r := mainLoop jr partitionList
  if r.1.isEmpty then
    { messages := r.2.1 ++ ["No metrics produced. Check that your input CSVs exist."]
      perSliceWrites := r.2.2
      aggregate := none }
  else
    let metrics := List.insertionSort (fun a b => metricsLE a b = true) r.1.flatten
    { messages := r.2.1 ++
        ["wrote fp_metrics/metrics_ecr_vs_adp.csv (" ++ toString metrics.length ++ " rows)"]
      perSliceWrites := r.2.2
      aggregate := some metrics }

/-! ## `available_years` (utils/paths.py lines 39-51) -/

/-- Python `str.split("_")`: cut at every underscore, keeping empty pieces. -/
def splitUGo (acc : List Char) : List Char → List (List Char)
  | [] => [acc.reverse]
  | c :: rest =>
    if c = '_' then acc.reverse :: splitUGo [] rest else splitUGo (c :: acc) rest

/-- `fnmatch` of the single-star glob `fp_stats_*_{scoring}_{pos}.csv`. -/
def matchesStatsGlob (scoring pos : String) (file : String) : Bool :=
  let pre := "fp_stats_".data
  let suf := ("_" ++ scoring ++ "_" ++ pos ++ ".csv").data
  isPre pre file.data && isPre suf.reverse file.data.reverse &&
    pre.length + suf.length ≤ file.data.length

/-- The loop of lines 43-48 over the files of `fp_season_stats/`: for each
file matching the glob, take the stem (the matched names all end in `.csv`),
split on `_`, and keep `parts[2]` when the shape check passes. -/
def yearsOf (scoring pos : String) (files : List String) : List String :=
  (files.filter (matchesStatsGlob scoring pos)).filterMap (fun f =>
    let parts := splitUGo [] (f.data.take (f.data.length - 4))
    if parts.length ≥ 5 && parts.head? = some "fp".data &&
        parts.get? 1 = some "stats".data then
      (parts.get? 2).map String.mk
    else none)

/-- `available_years(scoring, pos)` (utils/paths.py lines 39-51), the
directory contents supplied as `files`.  `list.remove` deletes the first
occurrence and raises `ValueError` when the value is absent; the return is
`sorted(set(years))`. -/
def available_years (scoring pos : String) (files : List String) :
    Except String (List String) :=
  let years := yearsOf scoring pos files
  if years.contains "2022" then
    let y1 := years.erase "2022"
    if y1.contains "2023" then
      .ok (List.insertionSort (fun a b => strLeb a b = true) ((y1.erase "2023").dedup))
    else .error "list.remove(x): x not in list"
  else .error "list.remove(x): x not in list"

/-! ## Specification-side definitions and proof-side predicates -/

/-- Spec-side reading of `MetricRow.sample_size`: the number of joined
records with a non-null value of the predictor column. -/
def nonNullCount (get : EvalRow → Option ℚ) (df : List EvalRow) : Nat :=
  (df.filter (fun r => (get r).isSome)).length

/-- Spec-side top-K hit rate: `|predicted_topK ∩ actual_topK| / K`, a pure
set-overlap measure. -/
def spec_hit_rate (P A : Finset Nat) (K : Nat) : ℚ :=
  ((P ∩ A).card : ℚ) / (K : ℚ)

/-- A cell that is numeric or missing — never a raw string. -/
def numOrNa : Cell → Bool
  | .num _ => true
  | .na => true
  | .str _ => false

/-- Outcome of one partition of `main`'s loop: the body returned a non-empty
merged frame (as opposed to raising or merging to empty). -/
def partSuccess (jr : Int → String → String → Except String EvalDf)
    (t : Int × String × String) : Prop :=
  ∃ d, jr t.1 t.2.1 t.2.2 = .ok d ∧ d.rows ≠ []

/-- Join keys of the three `merge_all` inputs and of its output rows: the
player name, plus the year exactly when all three frames carry one. -/
def adpKey (useY : Bool) (a : AdpInRow) : String × Option Int :=
  (a.player_name, if useY then some a.year else none)

def ecrKey (useY : Bool) (e : EcrInRow) : String × Option Int :=
  (e.player_name, if useY then some e.year else none)

def statsKey (useY : Bool) (s : StatsRankRow) : String × Option Int :=
  (s.player_name, if useY then some s.year else none)

def mergedKey (useY : Bool) (r : MergedRow) : String × Option Int :=
  (r.player_name, if useY then some r.year else none)

/-- No two adjacent whitespace characters. -/
def noDbl : List Char → Bool
  | [] => true
  | [_] => true
  | a :: b :: t => !(pyIsSpace a && pyIsSpace b) && noDbl (b :: t)

/-- The first character, if any, is not whitespace. -/
def headNoSpace : List Char → Bool
  | [] => true
  | c :: _ => !pyIsSpace c

/-- The last character, if any, is not whitespace. -/
def lastNoSpace : List Char → Bool
  | [] => true
  | [c] => !pyIsSpace c
  | _ :: t => lastNoSpace t

/-- A 3-row CSV export table (used to exhibit that the resolver accepts
tables far below 15 rows). -/
def smallEcrCsv : Table :=
  [⟨"PLAYER NAME", [.str "A", .str "B", .str "C"]⟩,
   ⟨"RK", [.num 1, .num 2, .num 3]⟩]

/-- An environment in which the cheatsheet page loads fine and its CSV export
link yields `smallEcrCsv`. -/
def smallEcrEnv : EcrEnv where
  get := fun u => ⟨200, u, "page"⟩
  findCsvLink := fun _ => some "https://www.fantasypros.com/export.csv"
  getCsv := fun _ => ⟨200, "https://www.fantasypros.com/export.csv", "body"⟩
  readCsv := fun _ => smallEcrCsv
  parseCheatsheet := fun _ => []

/-! # Theorems -/

/-! ## C10 — `available_years` and the hard-coded removal of 2022/2023 -/

/-- C10 (counterexample): with two distinct stats files both contributing the
year `2022` (the `*` of the glob matches across underscores), `2022` survives
`list.remove` and is returned, so "the returned list never contains '2022'"
is false even though the function returned normally. -/
theorem available_years_keeps_2022_counterexample :
    (available_years "ppr" "qb"
      ["fp_stats_2022_ppr_qb.csv", "fp_stats_2022_extra_ppr_qb.csv",
       "fp_stats_2023_ppr_qb.csv", "fp_stats_2021_ppr_qb.csv"]).toOption =
      some ["2021", "2022"] ∧
    "2022" ∈ (["2021", "2022"] : List String) := by
  decide

/-- C10 (amended): `available_years` raises `ValueError` whenever `2022` or
`2023` contributes no entry to the collected year list, and — provided each
of those years contributes at most one entry, as is the case when filenames
follow the documented pattern — a normal return never contains `2022` or
`2023`. -/
theorem available_years_removes_when_unique (scoring pos : String)
    (files : List String)
    (h22 : (yearsOf scoring pos files).count "2022" ≤ 1)
    (h23 : (yearsOf scoring pos files).count "2023" ≤ 1) :
    (∀ out, available_years scoring pos files = .ok out →
      "2022" ∉ out ∧ "2023" ∉ out) ∧
    (("2022" ∉ yearsOf scoring pos files ∨ "2023" ∉ yearsOf scoring pos files) →
      ∃ e, available_years scoring pos files = .error e) := by
  constructor
  · intro out hout
    unfold available_years at hout
    by_cases h1 : (yearsOf scoring pos files).contains "2022"
    · rw [if_pos h1] at hout
      by_cases h2 : ((yearsOf scoring pos files).erase "2022").contains "2023"
      · rw [if_pos h2] at hout
        have hout' : List.insertionSort (fun a b => strLeb a b = true)
            ((((yearsOf scoring pos files).erase "2022").erase "2023").dedup) = out := by
          simpa using hout
        subst hout'
        have hperm := List.perm_insertionSort (fun a b => strLeb a b = true)
          ((((yearsOf scoring pos files).erase "2022").erase "2023").dedup)
        constructor
        · intro hmem
          have hmem2 : "2022" ∈ (((yearsOf scoring pos files).erase "2022").erase "2023") := by
            have := hperm.mem_iff.mp hmem
            exact List.mem_dedup.mp this
          have hmem3 : "2022" ∈ ((yearsOf scoring pos files).erase "2022") :=
            List.mem_of_mem_erase hmem2
          have hcount : 0 < ((yearsOf scoring pos files).erase "2022").count "2022" :=
            List.count_pos_iff.mpr hmem3
          rw [List.count_erase_self] at hcount
          omega
        · intro hmem
          have hmem2 : "2023" ∈ (((yearsOf scoring pos files).erase "2022").erase "2023") := by
            have := hperm.mem_iff.mp hmem
            exact List.mem_dedup.mp this
          have hcount : 0 < ((((yearsOf scoring pos files).erase "2022")).erase "2023").count "2023" :=
            List.count_pos_iff.mpr hmem2
          rw [List.count_erase_self] at hcount
          rw [List.count_erase_of_ne (by decide)] at hcount
          omega
      · rw [if_neg h2] at hout
        exact absurd hout (by simp)
    · rw [if_neg h1] at hout
      exact absurd hout (by simp)
  · intro hmiss
    unfold available_years
    by_cases h1 : (yearsOf scoring pos files).contains "2022"
    · rw [if_pos h1]
      by_cases h2 : ((yearsOf scoring pos files).erase "2022").contains "2023"
      · exfalso
        rcases hmiss with h | h
        · exact h (List.elem_iff.mp h1)
        · exact h (List.mem_of_mem_erase (List.elem_iff.mp h2))
      · rw [if_neg h2]
        exact ⟨_, rfl⟩
    · rw [if_neg h1]
      exact ⟨_, rfl⟩

/-- C10 (witness): a directory with exactly one 2022 file and one 2023 file
satisfies the uniqueness hypotheses, and the theorem then applies. -/
theorem available_years_removes_when_unique_witness :
    ((yearsOf "ppr" "qb"
        ["fp_stats_2022_ppr_qb.csv", "fp_stats_2023_ppr_qb.csv",
         "fp_stats_2020_ppr_qb.csv"]).count "2022" ≤ 1 ∧
     (yearsOf "ppr" "qb"
        ["fp_stats_2022_ppr_qb.csv", "fp_stats_2023_ppr_qb.csv",
         "fp_stats_2020_ppr_qb.csv"]).count "2023" ≤ 1) ∧
    ((∀ out, available_years "ppr" "qb"
        ["fp_stats_2022_ppr_qb.csv", "fp_stats_2023_ppr_qb.csv",
         "fp_stats_2020_ppr_qb.csv"] = .ok out →
        "2022" ∉ out ∧ "2023" ∉ out) ∧
     (("2022" ∉ yearsOf "ppr" "qb"
          ["fp_stats_2022_ppr_qb.csv", "fp_stats_2023_ppr_qb.csv",
           "fp_stats_2020_ppr_qb.csv"] ∨
       "2023" ∉ yearsOf "ppr" "qb"
          ["fp_stats_2022_ppr_qb.csv", "fp_stats_2023_ppr_qb.csv",
           "fp_stats_2020_ppr_qb.csv"]) →
      ∃ e, available_years "ppr" "qb"
        ["fp_stats_2022_ppr_qb.csv", "fp_stats_2023_ppr_qb.csv",
         "fp_stats_2020_ppr_qb.csv"] = .error e)) :=
  ⟨⟨by decide, by decide⟩,
   available_years_removes_when_unique "ppr" "qb" _ (by decide) (by decide)⟩

/-! ## C6 — no 15-row floor in the table-resolution strategies -/

/-- C6 (counterexample): `fetch_ecr` happily returns a 3-row table through
its preferred CSV-export strategy — there is no minimum row-count floor of 15
(nor any row-count check at all) in strategies 1-2. -/
theorem fetch_ecr_small_table_counterexample :
    fetch_ecr smallEcrEnv 2020 "PPR" "qb" =
      (smallEcrCsv, "https://www.fantasypros.com/export.csv") ∧
    nrows smallEcrCsv = 3 ∧ 3 < 15 := by
  constructor
  · decide
  · constructor
    · decide
    · decide

/-- C6 (amended): the only floor strategies 1-2 apply is non-emptiness — the
resolver either fails with the empty table and empty source URL, or returns a
non-empty table; a ≥15-row floor does not exist (see the counterexample). -/
theorem fetch_ecr_rejects_only_empty (env : EcrEnv) (year : Int)
    (scoring pos : String) :
    (fetch_ecr env year scoring pos).1 = [] ∨
    tblEmpty (fetch_ecr env year scoring pos).1 = false := by
  unfold fetch_ecr
  generalize build_ecr_attempt_urls year scoring = urls
  induction urls with
  | nil => left; rfl
  | cons url rest ih =>
    unfold fetchEcrGo
    by_cases hskip : (env.get url).status ≥ 400 ||
        containsSubstr "account/login" (env.get url).url
    · simpa [hskip] using ih
    · simp only [hskip, if_false, Bool.false_eq_true]
      rcases hcsv : env.findCsvLink (env.get url).text with _ | csvUrl
      · simp only [hcsv]
        by_cases htbl : tblEmpty (env.parseCheatsheet (env.get url).text) = false
        · simp [htbl]
        · have htbl' : tblEmpty (env.parseCheatsheet (env.get url).text) = true := by
            revert htbl; cases tblEmpty (env.parseCheatsheet (env.get url).text) <;> simp
          simpa [htbl'] using ih
      · simp only [hcsv]
        by_cases hok : ((env.getCsv csvUrl).status < 400 && !((env.getCsv csvUrl).text = "")) = true
        · by_cases hemp : tblEmpty (env.readCsv (env.getCsv csvUrl).text) = false
          · simp [hok, hemp]
          · have hemp' : tblEmpty (env.readCsv (env.getCsv csvUrl).text) = true := by
              revert hemp; cases tblEmpty (env.readCsv (env.getCsv csvUrl).text) <;> simp
            by_cases htbl : tblEmpty (env.parseCheatsheet (env.get url).text) = false
            · simp [hok, hemp', htbl]
            · have htbl' : tblEmpty (env.parseCheatsheet (env.get url).text) = true := by
                revert htbl; cases tblEmpty (env.parseCheatsheet (env.get url).text) <;> simp
              simpa [hok, hemp', htbl'] using ih
        · by_cases htbl : tblEmpty (env.parseCheatsheet (env.get url).text) = false
          · simp [hok, htbl]
          · have htbl' : tblEmpty (env.parseCheatsheet (env.get url).text) = true := by
              revert htbl; cases tblEmpty (env.parseCheatsheet (env.get url).text) <;> simp
            simpa [hok, htbl'] using ih

/-! ## C1 — `evaluate_one`'s `n_players` is the full row count -/

/-- C1 (amended): every metric row emitted by `evaluate_one` reports
`n_players = len(df)` — the total number of joined records, not the count of
records with a non-null value for that predictor. -/
theorem evaluate_one_sample_size_is_row_count (d : EvalDf) (posU : String)
    (m : List (String × Nat)) :
    (evaluate_one d posU m).map (fun r => r.n_players) =
      List.replicate (predsOf d).length d.rows.length ∨ d.rows = [] := by
  rcases hrows : d.rows with _ | ⟨r0, rest⟩
  · right; rfl
  · left
    unfold evaluate_one
    rw [hrows]
    simp [List.map_map, Function.comp_def, List.map_const', hrows]

/-- C1 (counterexample): with two joined records of which only one has a
non-null ECR rank, the emitted ECR row carries `n_players = 2`, while the
count of records with a non-null value for the predictor is 1 — the claim's
reading of `sample_size` is false on the code. -/
theorem evaluate_one_sample_size_counterexample :
    ((evaluate_one
        ⟨false, false, false,
          [⟨2020, "ppr", some 1, none, none, none, 1⟩,
           ⟨2020, "ppr", none, none, none, none, 2⟩]⟩ "QB" TOPX_DEFAULTS).map
      (fun r => (r.model, r.n_players))) = [("ECR", 2)] ∧
    nonNullCount (fun r => r.ecr_rank)
      [⟨2020, "ppr", some 1, none, none, none, 1⟩,
       ⟨2020, "ppr", none, none, none, none, 2⟩] = 1 ∧
    (2 : Nat) ≠ 1 := by
  refine ⟨by decide, by decide, by decide⟩

/-! ## C9 — `main` writes the aggregate iff some partition produced metrics -/

theorem evaluate_one_ne_nil (d : EvalDf) (posU : String) (m : List (String × Nat))
    (h : d.rows ≠ []) : evaluate_one d posU m ≠ [] := by
  rcases hrows : d.rows with _ | ⟨r0, rest⟩
  · exact absurd hrows h
  · unfold evaluate_one
    rw [hrows]
    simp [predsOf]

theorem mainLoop_metrics_empty_iff (jr : Int → String → String → Except String EvalDf)
    (ts : List (Int × String × String)) :
    (mainLoop jr ts).1 = [] ↔ ∀ t ∈ ts, ¬ partSuccess jr t := by
  induction ts with
  | nil => simp [mainLoop]
  | cons t rest ih =>
    obtain ⟨y, s, p⟩ := t
    rcases hj : jr y s p with e | merged
    · simp only [mainLoop, hj]
      rw [ih, List.forall_mem_cons]
      constructor
      · intro h
        refine ⟨?_, h⟩
        rintro ⟨d, hd, _⟩
        rw [hj] at hd
        exact Except.noConfusion hd
      · intro h
        exact h.2
    · by_cases hemp : merged.rows.isEmpty
      · simp only [mainLoop, hj, hemp, if_true]
        rw [ih, List.forall_mem_cons]
        constructor
        · intro h
          refine ⟨?_, h⟩
          rintro ⟨d, hd, hne⟩
          rw [hj] at hd
          have hmd : merged = d := by simpa using hd
          subst hmd
          exact hne (List.isEmpty_iff.mp hemp)
        · intro h
          exact h.2
      · have hne : merged.rows ≠ [] := by
          intro hcon
          rw [hcon] at hemp
          exact hemp rfl
        have hmet := evaluate_one_ne_nil merged (upperStr p) TOPX_DEFAULTS hne
        have hmet' : (evaluate_one merged (upperStr p) TOPX_DEFAULTS).isEmpty = false := by
          rcases hm : evaluate_one merged (upperStr p) TOPX_DEFAULTS with _ | _
          · exact absurd hm hmet
          · rfl
        simp only [mainLoop, hj, hemp, if_false, hmet', Bool.false_eq_true]
        constructor
        · intro hcon
          exact absurd hcon (List.cons_ne_nil _ _)
        · intro h
          exact absurd ⟨merged, hj, hne⟩ (h (y, s, p) (List.mem_cons_self _ _))

/-- C9: if no partition yields a non-empty merged frame with metrics, `main`
prints the "No metrics produced" line and writes no aggregate file; if at
least one partition succeeds, an aggregate metrics table is written. -/
theorem main_no_metrics_reporting (jr : Int → String → String → Except String EvalDf) :
    ((∀ t ∈ partitionList, ¬ partSuccess jr t) →
      (main jr).aggregate = none ∧
      "No metrics produced. Check that your input CSVs exist." ∈ (main jr).messages) ∧
    ((∃ t ∈ partitionList, partSuccess jr t) →
      ∃ ms, (main jr).aggregate = some ms) := by
  constructor
  · intro h
    have hempty : (mainLoop jr partitionList).1 = [] :=
      (mainLoop_metrics_empty_iff jr partitionList).mpr h
    have hb : (mainLoop jr partitionList).1.isEmpty = true := by
      rw [hempty]; rfl
    unfold main
    simp only [hb, if_true]
    simp
  · rintro ⟨t, ht, hs⟩
    have hne : (mainLoop jr partitionList).1 ≠ [] := by
      intro hcon
      exact ((mainLoop_metrics_empty_iff jr partitionList).mp hcon) t ht hs
    have hb : (mainLoop jr partitionList).1.isEmpty = false := by
      rcases hm : (mainLoop jr partitionList).1 with _ | _
      · exact absurd hm hne
      · rfl
    unfold main
    simp only [hb, Bool.false_eq_true, if_false]
    exact ⟨_, rfl⟩

/-- C9 (witness): a run in which every partition raises reports no metrics
and writes nothing; a run with one successful partition writes an
aggregate. -/
theorem main_no_metrics_reporting_witness :
    ((main (fun _ _ _ => .error "missing")).aggregate = none ∧
      "No metrics produced. Check that your input CSVs exist." ∈
        (main (fun _ _ _ => .error "missing")).messages) ∧
    (∃ ms, (main (fun _ _ _ => .ok
        ⟨false, false, false,
         [⟨2015, "ppr", some 1, none, none, none, 1⟩]⟩)).aggregate = some ms) :=
  ⟨(main_no_metrics_reporting (fun _ _ _ => .error "missing")).1
      (fun _ _ hs => by
        rcases hs with ⟨d, hd, _⟩
        exact Except.noConfusion hd),
   (main_no_metrics_reporting (fun _ _ _ => .ok
        ⟨false, false, false,
         [⟨2015, "ppr", some 1, none, none, none, 1⟩]⟩)).2
      ⟨(2015, "ppr", "qb"), by decide,
        ⟨⟨false, false, false, [⟨2015, "ppr", some 1, none, none, none, 1⟩]⟩, rfl,
          by simp⟩⟩⟩

/-! ## C4 — `merge_all` joins on the key intersection -/

theorem enumFrom_map_snd {α β : Type} (f : α → β) :
    ∀ (n : Nat) (l : List α), (List.enumFrom n l).map (fun p => f p.2) = l.map f := by
  intro n l
  induction l generalizing n with
  | nil => rfl
  | cons x t ih => simp [List.enumFrom, ih]

/-- The ECR-side filter condition of `joined` is exactly key equality. -/
theorem ecr_match_iff (u : Bool) (a : AdpInRow) (e : EcrInRow) :
    (e.player_name = a.player_name && (!u || e.year == a.year)) = true ↔
      ecrKey u e = adpKey u a := by
  cases u <;> simp [adpKey, ecrKey, Prod.ext_iff]

theorem stats_match_iff (u : Bool) (a : AdpInRow) (s : StatsRankRow) :
    (s.player_name = a.player_name && (!u || s.year == a.year)) = true ↔
      statsKey u s = adpKey u a := by
  cases u <;> simp [adpKey, statsKey, Prod.ext_iff]

/-- Every row contributed by `a` to the join carries `a`'s key. -/
theorem mergedKey_of_joined (ay ey sy : Bool) (adp : List AdpInRow)
    (ecr : List EcrInRow) (stats : List StatsRankRow) :
    ∀ r ∈ joined ay ey sy adp ecr stats,
      ∃ a ∈ adp, ∃ e ∈ ecr, ∃ s ∈ stats,
        mergedKey (ay && ey && sy) r = adpKey (ay && ey && sy) a ∧
        ecrKey (ay && ey && sy) e = adpKey (ay && ey && sy) a ∧
        statsKey (ay && ey && sy) s = adpKey (ay && ey && sy) a := by
  intro r hr
  unfold joined at hr
  rw [List.mem_flatMap] at hr
  obtain ⟨a, ha, hr⟩ := hr
  rw [List.mem_flatMap] at hr
  obtain ⟨e, he, hr⟩ := hr
  rw [List.mem_filter] at he
  rw [List.mem_map] at hr
  obtain ⟨s, hs, hr⟩ := hr
  rw [List.mem_filter] at hs
  refine ⟨a, ha, e, he.1, s, hs.1, ?_, (ecr_match_iff _ a e).mp he.2,
    (stats_match_iff _ a s).mp hs.2⟩
  subst hr
  rcases hay : ay <;> rcases hey : ey <;> rcases hsy : sy <;>
    simp [mergedKey, adpKey]

/-- Conversely, sources agreeing on a key contribute a joined row. -/
theorem joined_of_keys (ay ey sy : Bool) (adp : List AdpInRow)
    (ecr : List EcrInRow) (stats : List StatsRankRow)
    (a : AdpInRow) (e : EcrInRow) (s : StatsRankRow)
    (ha : a ∈ adp) (he : e ∈ ecr) (hs : s ∈ stats)
    (hke : ecrKey (ay && ey && sy) e = adpKey (ay && ey && sy) a)
    (hks : statsKey (ay && ey && sy) s = adpKey (ay && ey && sy) a) :
    ∃ r ∈ joined ay ey sy adp ecr stats,
      mergedKey (ay && ey && sy) r = adpKey (ay && ey && sy) a := by
  refine ⟨{ player_name := a.player_name
            year := if ay then a.year else if ey then e.year else s.year
            espn_adp := a.espn_adp
            ecr_rank := e.ecr_rank
            final_rank := s.final_rank
            adp_error := a.espn_adp - s.final_rank
            ecr_error := e.ecr_rank - s.final_rank }, ?_, ?_⟩
  · unfold joined
    rw [List.mem_flatMap]
    refine ⟨a, ha, ?_⟩
    rw [List.mem_flatMap]
    refine ⟨e, List.mem_filter.mpr ⟨he, (ecr_match_iff _ a e).mpr hke⟩, ?_⟩
    rw [List.mem_map]
    exact ⟨s, List.mem_filter.mpr ⟨hs, (stats_match_iff _ a s).mpr hks⟩, rfl⟩
  · rcases hay : ay <;> rcases hey : ey <;> rcases hsy : sy <;>
      simp [mergedKey, adpKey]

/-- Projections unaffected by rank reassignment are permuted, not changed, by
`rerank`. -/
theorem rerank_map_proj {β : Type} (f : MergedRow → β)
    (hf : ∀ (r : MergedRow) (q : ℚ),
      f { r with final_rank := q, adp_error := r.espn_adp - q,
                 ecr_error := r.ecr_rank - q } = f r)
    (g : List MergedRow) : ((rerank g).map f).Perm (g.map f) := by
  unfold rerank assignRanks
  rw [List.map_map]
  have h1 : ∀ (s : List MergedRow),
      (s.enum.map (fun p =>
        f { p.2 with final_rank := ((p.1 + 1 : Nat) : ℚ),
                     adp_error := p.2.espn_adp - ((p.1 + 1 : Nat) : ℚ),
                     ecr_error := p.2.ecr_rank - ((p.1 + 1 : Nat) : ℚ) })) = s.map f := by
    intro s
    have := enumFrom_map_snd f 0 s
    calc (s.enum.map (fun p =>
            f { p.2 with final_rank := ((p.1 + 1 : Nat) : ℚ),
                         adp_error := p.2.espn_adp - ((p.1 + 1 : Nat) : ℚ),
                         ecr_error := p.2.ecr_rank - ((p.1 + 1 : Nat) : ℚ) }))
        = s.enum.map (fun p => f p.2) := by
          apply List.map_congr_left
          intro p _
          exact hf p.2 ((p.1 + 1 : Nat) : ℚ)
      _ = s.map f := enumFrom_map_snd f 0 s
  have h2 := h1 (List.insertionSort (fun a b => rerankLE a b = true) g)
  rw [show (fun p : Nat × MergedRow =>
        f { p.2 with final_rank := ((p.1 + 1 : Nat) : ℚ),
                     adp_error := p.2.espn_adp - ((p.1 + 1 : Nat) : ℚ),
                     ecr_error := p.2.ecr_rank - ((p.1 + 1 : Nat) : ℚ) }) =
      (f ∘ fun p : Nat × MergedRow =>
        { p.2 with final_rank := ((p.1 + 1 : Nat) : ℚ),
                   adp_error := p.2.espn_adp - ((p.1 + 1 : Nat) : ℚ),
                   ecr_error := p.2.ecr_rank - ((p.1 + 1 : Nat) : ℚ) }) from rfl] at h2
  rw [h2]
  exact (List.perm_insertionSort _ g).map f

/-- Pointwise-permuted pieces give permuted concatenations. -/
theorem flatMap_perm_of_pointwise {α β : Type} (ys : List α) (f g : α → List β)
    (h : ∀ y ∈ ys, (f y).Perm (g y)) : (ys.flatMap f).Perm (ys.flatMap g) := by
  induction ys with
  | nil => rfl
  | cons y rest ih =>
    simp only [List.flatMap_cons]
    exact (h y (List.mem_cons_self _ _)).append
      (ih (fun y' hy' => h y' (List.mem_cons_of_mem _ hy')))

/-- Partitioning a list by the distinct values its elements take and
concatenating the parts permutes the list. -/
theorem flatMap_filter_year_perm (ys : List Int) (l : List MergedRow)
    (hnd : ys.Nodup) (hall : ∀ r ∈ l, r.year ∈ ys) :
    (ys.flatMap (fun y => l.filter (fun r => r.year = y))).Perm l := by
  induction ys generalizing l with
  | nil =>
    cases l with
    | nil => rfl
    | cons r t => exact absurd (hall r (List.mem_cons_self _ _)) (by simp)
  | cons y rest ih =>
    simp only [List.flatMap_cons]
    have hstep : ∀ y' ∈ rest,
        l.filter (fun r => r.year = y') =
        (l.filter (fun r => !(decide (r.year = y)))).filter (fun r => r.year = y') := by
      intro y' hy'
      have hne : y' ≠ y := by
        rintro rfl
        exact (List.nodup_cons.mp hnd).1 hy'
      rw [List.filter_filter]
      apply List.filter_congr
      intro r _
      by_cases hr : r.year = y'
      · simp [hr, hne]
      · simp [hr]
    have hflat : rest.flatMap (fun y' => l.filter (fun r => r.year = y')) =
        rest.flatMap (fun y' =>
          (l.filter (fun r => !(decide (r.year = y)))).filter (fun r => r.year = y')) := by
      apply List.flatMap_congr
      intro y' hy'
      exact hstep y' hy'
    rw [hflat]
    have hperm2 := ih (l.filter (fun r => !(decide (r.year = y))))
      (List.Nodup.of_cons hnd)
      (by
        intro r hr
        rw [List.mem_filter] at hr
        have := hall r hr.1
        rcases List.mem_cons.mp this with h | h
        · exact absurd (decide_eq_true h) (by simpa using hr.2)
        · exact h)
    exact List.Perm.trans (List.Perm.append_left _ hperm2)
      (List.filter_append_perm _ l)

/-- The key multiset of `merge_all`'s output is that of the plain join: the
re-rank only permutes rows and rewrites rank/error fields. -/
theorem merge_all_map_key_perm (ay ey sy : Bool) (adp : List AdpInRow)
    (ecr : List EcrInRow) (stats : List StatsRankRow) :
    ((merge_all ay ey sy adp ecr stats).map (mergedKey (ay && ey && sy))).Perm
      ((joined ay ey sy adp ecr stats).map (mergedKey (ay && ey && sy))) := by
  have hkey : ∀ (r : MergedRow) (q : ℚ),
      mergedKey (ay && ey && sy)
        { r with final_rank := q, adp_error := r.espn_adp - q,
                 ecr_error := r.ecr_rank - q } = mergedKey (ay && ey && sy) r := by
    intro r q; rfl
  unfold merge_all
  by_cases hdup : ((joined ay ey sy adp ecr stats).map (fun r => r.final_rank)).Nodup
  · rw [if_pos hdup]
  · rw [if_neg hdup]
    by_cases hy : mergedHasYear ay ey sy
    · rw [if_pos hy]
      have h1 : ((sortedYears (joined ay ey sy adp ecr stats)).flatMap
            (fun y => rerank ((joined ay ey sy adp ecr stats).filter
              (fun r => r.year = y)))).map (mergedKey (ay && ey && sy)) =
          (sortedYears (joined ay ey sy adp ecr stats)).flatMap
            (fun y => (rerank ((joined ay ey sy adp ecr stats).filter
              (fun r => r.year = y))).map (mergedKey (ay && ey && sy))) := by
        rw [List.map_flatMap]
      rw [h1]
      have h2 : ((sortedYears (joined ay ey sy adp ecr stats)).flatMap
            (fun y => (rerank ((joined ay ey sy adp ecr stats).filter
              (fun r => r.year = y))).map (mergedKey (ay && ey && sy)))).Perm
          ((sortedYears (joined ay ey sy adp ecr stats)).flatMap
            (fun y => ((joined ay ey sy adp ecr stats).filter
              (fun r => r.year = y)).map (mergedKey (ay && ey && sy)))) :=
        flatMap_perm_of_pointwise _ _ _
          (fun y _ => rerank_map_proj (mergedKey (ay && ey && sy)) hkey _)
      refine h2.trans ?_
      rw [← List.map_flatMap]
      apply List.Perm.map
      apply flatMap_filter_year_perm
      · unfold sortedYears
        exact ((List.perm_insertionSort _ _).nodup_iff).mpr (List.nodup_dedup _)
      · intro r hr
        unfold sortedYears
        have : r.year ∈ ((joined ay ey sy adp ecr stats).map
            (fun r => r.year)).dedup := by
          rw [List.mem_dedup]
          exact List.mem_map.mpr ⟨r, hr, rfl⟩
        exact (List.perm_insertionSort _ _).mem_iff.mpr this
    · rw [if_neg hy]
      exact rerank_map_proj (mergedKey (ay && ey && sy)) hkey _

theorem merge_all_length_eq (ay ey sy : Bool) (adp : List AdpInRow)
    (ecr : List EcrInRow) (stats : List StatsRankRow) :
    (merge_all ay ey sy adp ecr stats).length =
      (joined ay ey sy adp ecr stats).length := by
  have h := (merge_all_map_key_perm ay ey sy adp ecr stats).length_eq
  simpa using h

/-- In a list with pairwise distinct key images, at most one element carries
any given key. -/
theorem length_filter_key_le_one {α β : Type} [DecidableEq β] (f : α → β)
    (K : β) : ∀ (l : List α), (l.map f).Nodup →
    (l.filter (fun x => f x = K)).length ≤ 1 := by
  intro l
  induction l with
  | nil => intro _; simp
  | cons x t ih =>
    intro hnd
    rw [List.map_cons, List.nodup_cons] at hnd
    by_cases hx : f x = K
    · have ht : t.filter (fun x => f x = K) = [] := by
        rw [List.filter_eq_nil_iff]
        intro y hy hcon
        have : f y = K := of_decide_eq_true hcon
        exact hnd.1 (List.mem_map.mpr ⟨y, hy, by rw [this, hx]⟩)
      simp [hx, ht]
    · have := ih hnd.2
      simpa [hx] using this

/-- With key-unique ECR and stats inputs, the joined keys form a sublist of
the ADP keys (each ADP row contributes at most one joined row, with its own
key). -/
theorem joined_keys_sublist (ay ey sy : Bool) (ecr : List EcrInRow)
    (stats : List StatsRankRow)
    (he : (ecr.map (ecrKey (ay && ey && sy))).Nodup)
    (hs : (stats.map (statsKey (ay && ey && sy))).Nodup) :
    ∀ (adp : List AdpInRow),
    ((joined ay ey sy adp ecr stats).map (mergedKey (ay && ey && sy))).Sublist
      (adp.map (adpKey (ay && ey && sy))) := by
  intro adp
  induction adp with
  | nil => simp [joined]
  | cons a rest ih =>
    have hsplit : joined ay ey sy (a :: rest) ecr stats =
        ((ecr.filter (fun e => e.player_name = a.player_name &&
            (!(ay && ey && sy) || e.year == a.year))).flatMap (fun e =>
          (stats.filter (fun s => s.player_name = a.player_name &&
              (!(ay && ey && sy) || s.year == a.year))).map (fun s =>
            { player_name := a.player_name
              year := if ay then a.year else if ey then e.year else s.year
              espn_adp := a.espn_adp
              ecr_rank := e.ecr_rank
              final_rank := s.final_rank
              adp_error := a.espn_adp - s.final_rank
              ecr_error := e.ecr_rank - s.final_rank }))) ++
        joined ay ey sy rest ecr stats := by
      simp [joined]
    rw [hsplit, List.map_append, List.map_cons]
    have hpieceKey : ∀ r ∈ ((ecr.filter (fun e => e.player_name = a.player_name &&
          (!(ay && ey && sy) || e.year == a.year))).flatMap (fun e =>
        (stats.filter (fun s => s.player_name = a.player_name &&
            (!(ay && ey && sy) || s.year == a.year))).map (fun s =>
          ({ player_name := a.player_name
             year := if ay then a.year else if ey then e.year else s.year
             espn_adp := a.espn_adp
             ecr_rank := e.ecr_rank
             final_rank := s.final_rank
             adp_error := a.espn_adp - s.final_rank
             ecr_error := e.ecr_rank - s.final_rank } : MergedRow)))),
        mergedKey (ay && ey && sy) r = adpKey (ay && ey && sy) a := by
      intro r hr
      rw [List.mem_flatMap] at hr
      obtain ⟨e, _, hr⟩ := hr
      rw [List.mem_map] at hr
      obtain ⟨s, _, hr⟩ := hr
      subst hr
      rcases hay : ay <;> rcases hey : ey <;> rcases hsy : sy <;>
        simp [mergedKey, adpKey]
    have hpieceLen : ((ecr.filter (fun e => e.player_name = a.player_name &&
          (!(ay && ey && sy) || e.year == a.year))).flatMap (fun e =>
        (stats.filter (fun s => s.player_name = a.player_name &&
            (!(ay && ey && sy) || s.year == a.year))).map (fun s =>
          ({ player_name := a.player_name
             year := if ay then a.year else if ey then e.year else s.year
             espn_adp := a.espn_adp
             ecr_rank := e.ecr_rank
             final_rank := s.final_rank
             adp_error := a.espn_adp - s.final_rank
             ecr_error := e.ecr_rank - s.final_rank } : MergedRow)))).length ≤ 1 := by
      have hE : (ecr.filter (fun e => e.player_name = a.player_name &&
          (!(ay && ey && sy) || e.year == a.year))).length ≤ 1 := by
        have hcongr : ecr.filter (fun e => e.player_name = a.player_name &&
            (!(ay && ey && sy) || e.year == a.year)) =
            ecr.filter (fun e =>
              ecrKey (ay && ey && sy) e = adpKey (ay && ey && sy) a) := by
          apply List.filter_congr
          intro e _
          rcases hb : (e.player_name = a.player_name &&
              (!(ay && ey && sy) || e.year == a.year)) with _ | _
          · have : ¬ (ecrKey (ay && ey && sy) e = adpKey (ay && ey && sy) a) := by
              intro hcon
              have := (ecr_match_iff (ay && ey && sy) a e).mpr hcon
              rw [hb] at this
              exact Bool.false_ne_true this
            simp [this]
          · have := (ecr_match_iff (ay && ey && sy) a e).mp hb
            simp [this]
        rw [hcongr]
        exact length_filter_key_le_one (ecrKey (ay && ey && sy))
          (adpKey (ay && ey && sy) a) ecr he
      have hS : (stats.filter (fun s => s.player_name = a.player_name &&
          (!(ay && ey && sy) || s.year == a.year))).length ≤ 1 := by
        have hcongr : stats.filter (fun s => s.player_name = a.player_name &&
            (!(ay && ey && sy) || s.year == a.year)) =
            stats.filter (fun s =>
              statsKey (ay && ey && sy) s = adpKey (ay && ey && sy) a) := by
          apply List.filter_congr
          intro s _
          rcases hb : (s.player_name = a.player_name &&
              (!(ay && ey && sy) || s.year == a.year)) with _ | _
          · have : ¬ (statsKey (ay && ey && sy) s = adpKey (ay && ey && sy) a) := by
              intro hcon
              have := (stats_match_iff (ay && ey && sy) a s).mpr hcon
              rw [hb] at this
              exact Bool.false_ne_true this
            simp [this]
          · have := (stats_match_iff (ay && ey && sy) a s).mp hb
            simp [this]
        rw [hcongr]
        exact length_filter_key_le_one (statsKey (ay && ey && sy))
          (adpKey (ay && ey && sy) a) stats hs
      rcases hEl : ecr.filter (fun e => e.player_name = a.player_name &&
          (!(ay && ey && sy) || e.year == a.year)) with _ | ⟨e0, etail⟩
      · rw [hEl]
        simp
      · rw [hEl] at hE
        have hetail : etail = [] := by
          cases etail with
          | nil => rfl
          | cons _ _ => simp at hE
        subst hetail
        rw [hEl]
        simp only [List.flatMap_cons, List.flatMap_nil, List.append_nil,
          List.length_map]
        exact hS
    rcases hP : ((ecr.filter (fun e => e.player_name = a.player_name &&
          (!(ay && ey && sy) || e.year == a.year))).flatMap (fun e =>
        (stats.filter (fun s => s.player_name = a.player_name &&
            (!(ay && ey && sy) || s.year == a.year))).map (fun s =>
          ({ player_name := a.player_name
             year := if ay then a.year else if ey then e.year else s.year
             espn_adp := a.espn_adp
             ecr_rank := e.ecr_rank
             final_rank := s.final_rank
             adp_error := a.espn_adp - s.final_rank
             ecr_error := e.ecr_rank - s.final_rank } : MergedRow)))) with _ | ⟨r0, rtail⟩
    · rw [hP]
      simp only [List.map_nil, List.nil_append]
      exact List.Sublist.cons _ ih
    · rw [hP] at hpieceLen hpieceKey
      rw [hP]
      have hrtail : rtail = [] := by
        cases rtail with
        | nil => rfl
        | cons _ _ => simp at hpieceLen
      subst hrtail
      have hk0 : mergedKey (ay && ey && sy) r0 = adpKey (ay && ey && sy) a :=
        hpieceKey r0 (List.mem_cons_self _ _)
      simp only [List.map_cons, List.map_nil, List.nil_append,
        List.cons_append, hk0]
      exact List.Sublist.cons₂ _ ih

/-- C4 (amended): a join key occurs in `merge_all`'s output exactly when it
occurs in all three inputs (strict inner join); and provided each input's
keys are distinct — pandas merges are many-to-many, so duplicate keys
multiply rows (see the counterexample) — the output has at most
`min(|adp|, |ecr|, |stats|)` records. -/
theorem merge_all_inner_join_intersection (ay ey sy : Bool) (adp : List AdpInRow)
    (ecr : List EcrInRow) (stats : List StatsRankRow) :
    (∀ k, k ∈ (merge_all ay ey sy adp ecr stats).map (mergedKey (ay && ey && sy)) ↔
      (k ∈ adp.map (adpKey (ay && ey && sy)) ∧
       k ∈ ecr.map (ecrKey (ay && ey && sy)) ∧
       k ∈ stats.map (statsKey (ay && ey && sy)))) ∧
    ((adp.map (adpKey (ay && ey && sy))).Nodup →
     (ecr.map (ecrKey (ay && ey && sy))).Nodup →
     (stats.map (statsKey (ay && ey && sy))).Nodup →
     (merge_all ay ey sy adp ecr stats).length ≤
       min (min adp.length ecr.length) stats.length) := by
  have hmemJ : ∀ k, k ∈ (joined ay ey sy adp ecr stats).map (mergedKey (ay && ey && sy)) ↔
      (k ∈ adp.map (adpKey (ay && ey && sy)) ∧
       k ∈ ecr.map (ecrKey (ay && ey && sy)) ∧
       k ∈ stats.map (statsKey (ay && ey && sy))) := by
    intro k
    constructor
    · intro hk
      rw [List.mem_map] at hk
      obtain ⟨r, hr, hkr⟩ := hk
      obtain ⟨a, ha, e, he, s, hs, hra, hea, hsa⟩ :=
        mergedKey_of_joined ay ey sy adp ecr stats r hr
      subst hkr
      exact ⟨List.mem_map.mpr ⟨a, ha, hra.symm⟩,
        List.mem_map.mpr ⟨e, he, hea.trans hra.symm⟩,
        List.mem_map.mpr ⟨s, hs, hsa.trans hra.symm⟩⟩
    · rintro ⟨hka, hke, hks⟩
      rw [List.mem_map] at hka hke hks
      obtain ⟨a, ha, hka⟩ := hka
      obtain ⟨e, he, hke⟩ := hke
      obtain ⟨s, hs, hks⟩ := hks
      obtain ⟨r, hr, hkr⟩ := joined_of_keys ay ey sy adp ecr stats a e s ha he hs
        (by rw [hke, hka]) (by rw [hks, hka])
      exact List.mem_map.mpr ⟨r, hr, by rw [hkr, hka]⟩
  constructor
  · intro k
    rw [(merge_all_map_key_perm ay ey sy adp ecr stats).mem_iff]
    exact hmemJ k
  · intro ha he hs
    rw [merge_all_length_eq]
    have hsub := joined_keys_sublist ay ey sy ecr stats he hs adp
    have hlenJ : (joined ay ey sy adp ecr stats).length =
        ((joined ay ey sy adp ecr stats).map (mergedKey (ay && ey && sy))).length := by
      rw [List.length_map]
    have hndJ : ((joined ay ey sy adp ecr stats).map (mergedKey (ay && ey && sy))).Nodup :=
      hsub.nodup ha
    have hA : (joined ay ey sy adp ecr stats).length ≤ adp.length := by
      rw [hlenJ]
      have := hsub.length_le
      simpa using this
    have hE : (joined ay ey sy adp ecr stats).length ≤ ecr.length := by
      rw [hlenJ]
      have hss : ((joined ay ey sy adp ecr stats).map (mergedKey (ay && ey && sy))).Subperm
          (ecr.map (ecrKey (ay && ey && sy))) := by
        apply List.subperm_of_subset hndJ
        intro k hk
        exact ((hmemJ k).mp hk).2.1
      have := hss.length_le
      simpa using this
    have hS : (joined ay ey sy adp ecr stats).length ≤ stats.length := by
      rw [hlenJ]
      have hss : ((joined ay ey sy adp ecr stats).map (mergedKey (ay && ey && sy))).Subperm
          (stats.map (statsKey (ay && ey && sy))) := by
        apply List.subperm_of_subset hndJ
        intro k hk
        exact ((hmemJ k).mp hk).2.2
      have := hss.length_le
      simpa using this
    omega

/-- C4 (counterexample): with a key duplicated in every source, the inner
join is many-to-many: three 2-row inputs produce 8 joined records, violating
`|JoinedRecord[]| ≤ min(|source_i|) = 2`. -/
theorem merge_all_join_size_counterexample :
    (merge_all false false false
      [⟨"a", 0, 1⟩, ⟨"a", 0, 2⟩] [⟨"a", 0, 1⟩, ⟨"a", 0, 2⟩]
      [⟨"a", 0, 1⟩, ⟨"a", 0, 2⟩]).length = 8 ∧
    ¬ ((8 : Nat) ≤ min (min 2 2) 2) := by
  constructor
  · decide
  · decide

/-- C4 (witness): on key-unique inputs the hypotheses hold and the theorem's
intersection and cardinality conclusions apply. -/
theorem merge_all_inner_join_intersection_witness :
    (∀ k, k ∈ (merge_all false false false
        [⟨"a", 0, 1⟩, ⟨"b", 0, 2⟩] [⟨"b", 0, 3⟩]
        [⟨"b", 0, 5⟩, ⟨"c", 0, 7⟩]).map (mergedKey (false && false && false)) ↔
      (k ∈ [AdpInRow.mk "a" 0 1, AdpInRow.mk "b" 0 2].map (adpKey (false && false && false)) ∧
       k ∈ [EcrInRow.mk "b" 0 3].map (ecrKey (false && false && false)) ∧
       k ∈ [StatsRankRow.mk "b" 0 5, StatsRankRow.mk "c" 0 7].map
         (statsKey (false && false && false)))) ∧
    (merge_all false false false
        [⟨"a", 0, 1⟩, ⟨"b", 0, 2⟩] [⟨"b", 0, 3⟩]
        [⟨"b", 0, 5⟩, ⟨"c", 0, 7⟩]).length ≤ min (min 2 1) 2 :=
  ⟨(merge_all_inner_join_intersection false false false
      [⟨"a", 0, 1⟩, ⟨"b", 0, 2⟩] [⟨"b", 0, 3⟩] [⟨"b", 0, 5⟩, ⟨"c", 0, 7⟩]).1,
   (merge_all_inner_join_intersection false false false
      [⟨"a", 0, 1⟩, ⟨"b", 0, 2⟩] [⟨"b", 0, 3⟩] [⟨"b", 0, 5⟩, ⟨"c", 0, 7⟩]).2
     (by decide) (by decide) (by decide)⟩

/-! ## C3 — the duplicate-rank re-rank assigns exactly 1..N per partition -/

theorem enumFrom_map_rank : ∀ (n : Nat) (l : List MergedRow),
    (List.enumFrom n l).map (fun p => ((p.1 + 1 : Nat) : ℚ)) =
      (List.range' (n + 1) l.length).map (fun k => ((k : Nat) : ℚ)) := by
  intro n l
  induction l generalizing n with
  | nil => rfl
  | cons x t ih =>
    simp only [List.enumFrom, List.map_cons, List.length_cons, List.range'_succ]
    exact congrArg _ (ih (n + 1))

theorem assignRanks_map_final (g : List MergedRow) :
    (assignRanks g).map (fun r => r.final_rank) =
      (List.range' 1 g.length).map (fun k => ((k : Nat) : ℚ)) := by
  unfold assignRanks
  rw [List.map_map]
  have : ((fun r : MergedRow => r.final_rank) ∘ fun p : Nat × MergedRow =>
      { p.2 with final_rank := ((p.1 + 1 : Nat) : ℚ)
                 adp_error := p.2.espn_adp - ((p.1 + 1 : Nat) : ℚ)
                 ecr_error := p.2.ecr_rank - ((p.1 + 1 : Nat) : ℚ) }) =
      (fun p : Nat × MergedRow => ((p.1 + 1 : Nat) : ℚ)) := rfl
  rw [this]
  exact enumFrom_map_rank 0 g

theorem rerank_map_final (g : List MergedRow) :
    (rerank g).map (fun r => r.final_rank) =
      (List.range' 1 g.length).map (fun k => ((k : Nat) : ℚ)) := by
  unfold rerank
  rw [assignRanks_map_final]
  rw [(List.perm_insertionSort (fun a b => rerankLE a b = true) g).length_eq]

theorem rerank_errors (g : List MergedRow) :
    ∀ r ∈ rerank g, r.adp_error = r.espn_adp - r.final_rank ∧
      r.ecr_error = r.ecr_rank - r.final_rank := by
  intro r hr
  unfold rerank assignRanks at hr
  rw [List.mem_map] at hr
  obtain ⟨p, _, rfl⟩ := hr
  exact ⟨rfl, rfl⟩

theorem rerank_year_mem (g : List MergedRow) :
    ∀ r ∈ rerank g, ∃ r0 ∈ g, r.year = r0.year := by
  intro r hr
  have hperm := rerank_map_proj (fun r => r.year) (fun _ _ => rfl) g
  have : r.year ∈ (rerank g).map (fun r => r.year) := List.mem_map.mpr ⟨r, hr, rfl⟩
  have := hperm.mem_iff.mp this
  rw [List.mem_map] at this
  obtain ⟨r0, hr0, hy⟩ := this
  exact ⟨r0, hr0, hy.symm⟩

theorem filter_flatMap_groups (y : Int) (g : Int → List MergedRow) :
    ∀ (ys : List Int), ys.Nodup →
    (∀ y' ∈ ys, ∀ r ∈ g y', r.year = y') →
    (ys.flatMap g).filter (fun r => r.year = y) = if y ∈ ys then g y else [] := by
  intro ys
  induction ys with
  | nil => intro _ _; simp
  | cons y0 rest ih =>
    intro hnd hyr
    simp only [List.flatMap_cons, List.filter_append]
    by_cases hy0 : y0 = y
    · subst hy0
      have h1 : (g y0).filter (fun r => r.year = y0) = g y0 := by
        rw [List.filter_eq_self]
        intro r hr
        exact decide_eq_true (hyr y0 (List.mem_cons_self _ _) r hr)
      have h2 : (rest.flatMap g).filter (fun r => r.year = y0) = [] := by
        rw [ih (List.Nodup.of_cons hnd)
          (fun y' hy' => hyr y' (List.mem_cons_of_mem _ hy'))]
        rw [if_neg (List.nodup_cons.mp hnd).1]
      rw [h1, h2, if_pos (List.mem_cons_self _ _), List.append_nil]
    · have h1 : (g y0).filter (fun r => r.year = y) = [] := by
        rw [List.filter_eq_nil_iff]
        intro r hr hcon
        exact hy0 ((hyr y0 (List.mem_cons_self _ _) r hr).symm.trans
          (of_decide_eq_true hcon))
      have h2 := ih (List.Nodup.of_cons hnd)
        (fun y' hy' => hyr y' (List.mem_cons_of_mem _ hy'))
      rw [h1, h2, List.nil_append]
      by_cases hmem : y ∈ rest
      · rw [if_pos hmem, if_pos (List.mem_cons_of_mem _ hmem)]
      · rw [if_neg hmem, if_neg (by
          intro hcon
          rcases List.mem_cons.mp hcon with h | h
          · exact hy0 h.symm
          · exact hmem h)]

/-- C3: whenever the joined table has duplicate `final_rank` values,
`merge_all` re-ranks — per year when a `year` column exists, globally
otherwise: each partition becomes exactly the stable sort of its joined rows
by `(final_rank, ecr_rank, espn_adp, player_name)` ascending with
`final_rank` reassigned to exactly `1..N`, and both error columns are
recomputed from the new ranks. -/
theorem merge_all_rerank_unique (ay ey sy : Bool) (adp : List AdpInRow)
    (ecr : List EcrInRow) (stats : List StatsRankRow)
    (hdup : ¬ ((joined ay ey sy adp ecr stats).map (fun r => r.final_rank)).Nodup) :
    (∀ r ∈ merge_all ay ey sy adp ecr stats,
      r.adp_error = r.espn_adp - r.final_rank ∧
      r.ecr_error = r.ecr_rank - r.final_rank) ∧
    (mergedHasYear ay ey sy = true →
      ∀ y : Int,
        (merge_all ay ey sy adp ecr stats).filter (fun r => r.year = y) =
          rerank ((joined ay ey sy adp ecr stats).filter (fun r => r.year = y)) ∧
        ((merge_all ay ey sy adp ecr stats).filter (fun r => r.year = y)).map
            (fun r => r.final_rank) =
          (List.range' 1 ((joined ay ey sy adp ecr stats).filter
            (fun r => r.year = y)).length).map (fun k => ((k : Nat) : ℚ))) ∧
    (mergedHasYear ay ey sy = false →
      merge_all ay ey sy adp ecr stats = rerank (joined ay ey sy adp ecr stats) ∧
      (merge_all ay ey sy adp ecr stats).map (fun r => r.final_rank) =
        (List.range' 1 (joined ay ey sy adp ecr stats).length).map
          (fun k => ((k : Nat) : ℚ))) := by
  have hyrGroups : ∀ y' ∈ sortedYears (joined ay ey sy adp ecr stats),
      ∀ r ∈ rerank ((joined ay ey sy adp ecr stats).filter
        (fun r => r.year = y')), r.year = y' := by
    intro y' _ r hr
    obtain ⟨r0, hr0, hy⟩ := rerank_year_mem _ r hr
    rw [List.mem_filter] at hr0
    exact hy.trans (of_decide_eq_true hr0.2)
  have hndYs : (sortedYears (joined ay ey sy adp ecr stats)).Nodup := by
    unfold sortedYears
    exact ((List.perm_insertionSort _ _).nodup_iff).mpr (List.nodup_dedup _)
  constructor
  · intro r hr
    unfold merge_all at hr
    rw [if_neg hdup] at hr
    by_cases hy : mergedHasYear ay ey sy
    · rw [if_pos hy] at hr
      rw [List.mem_flatMap] at hr
      obtain ⟨y, _, hr⟩ := hr
      exact rerank_errors _ r hr
    · rw [if_neg hy] at hr
      exact rerank_errors _ r hr
  constructor
  · intro hy y
    have hout : merge_all ay ey sy adp ecr stats =
        (sortedYears (joined ay ey sy adp ecr stats)).flatMap
          (fun y' => rerank ((joined ay ey sy adp ecr stats).filter
            (fun r => r.year = y'))) := by
      unfold merge_all
      rw [if_neg hdup, if_pos hy]
    rw [hout]
    rw [filter_flatMap_groups y _ _ hndYs hyrGroups]
    by_cases hmem : y ∈ sortedYears (joined ay ey sy adp ecr stats)
    · rw [if_pos hmem]
      exact ⟨rfl, rerank_map_final _⟩
    · rw [if_neg hmem]
      have hfilt : (joined ay ey sy adp ecr stats).filter
          (fun r => r.year = y) = [] := by
        rw [List.filter_eq_nil_iff]
        intro r hr hcon
        apply hmem
        unfold sortedYears
        refine ((List.perm_insertionSort _ _).mem_iff).mpr ?_
        rw [List.mem_dedup]
        exact List.mem_map.mpr ⟨r, hr, of_decide_eq_true hcon⟩
      rw [hfilt]
      exact ⟨rfl, rfl⟩
  · intro hy
    have hout : merge_all ay ey sy adp ecr stats =
        rerank (joined ay ey sy adp ecr stats) := by
      unfold merge_all
      rw [if_neg hdup, if_neg (by rw [hy]; exact Bool.false_ne_true)]
    exact ⟨hout, by rw [hout]; exact rerank_map_final _⟩

/-- C3 (witness): a concrete join with duplicate final ranks re-ranked
globally. -/
theorem merge_all_rerank_unique_witness :
    (¬ ((joined false false false
        [⟨"a", 0, 1⟩, ⟨"b", 0, 2⟩] [⟨"a", 0, 3⟩, ⟨"b", 0, 4⟩]
        [⟨"a", 0, 5⟩, ⟨"b", 0, 5⟩]).map (fun r => r.final_rank)).Nodup) ∧
    ((∀ r ∈ merge_all false false false
        [⟨"a", 0, 1⟩, ⟨"b", 0, 2⟩] [⟨"a", 0, 3⟩, ⟨"b", 0, 4⟩]
        [⟨"a", 0, 5⟩, ⟨"b", 0, 5⟩],
      r.adp_error = r.espn_adp - r.final_rank ∧
      r.ecr_error = r.ecr_rank - r.final_rank) ∧
    (mergedHasYear false false false = true →
      ∀ y : Int,
        (merge_all false false false
            [⟨"a", 0, 1⟩, ⟨"b", 0, 2⟩] [⟨"a", 0, 3⟩, ⟨"b", 0, 4⟩]
            [⟨"a", 0, 5⟩, ⟨"b", 0, 5⟩]).filter (fun r => r.year = y) =
          rerank ((joined false false false
            [⟨"a", 0, 1⟩, ⟨"b", 0, 2⟩] [⟨"a", 0, 3⟩, ⟨"b", 0, 4⟩]
            [⟨"a", 0, 5⟩, ⟨"b", 0, 5⟩]).filter (fun r => r.year = y)) ∧
        ((merge_all false false false
            [⟨"a", 0, 1⟩, ⟨"b", 0, 2⟩] [⟨"a", 0, 3⟩, ⟨"b", 0, 4⟩]
            [⟨"a", 0, 5⟩, ⟨"b", 0, 5⟩]).filter (fun r => r.year = y)).map
            (fun r => r.final_rank) =
          (List.range' 1 ((joined false false false
            [⟨"a", 0, 1⟩, ⟨"b", 0, 2⟩] [⟨"a", 0, 3⟩, ⟨"b", 0, 4⟩]
            [⟨"a", 0, 5⟩, ⟨"b", 0, 5⟩]).filter
            (fun r => r.year = y)).length).map (fun k => ((k : Nat) : ℚ))) ∧
    (mergedHasYear false false false = false →
      merge_all false false false
          [⟨"a", 0, 1⟩, ⟨"b", 0, 2⟩] [⟨"a", 0, 3⟩, ⟨"b", 0, 4⟩]
          [⟨"a", 0, 5⟩, ⟨"b", 0, 5⟩] =
        rerank (joined false false false
          [⟨"a", 0, 1⟩, ⟨"b", 0, 2⟩] [⟨"a", 0, 3⟩, ⟨"b", 0, 4⟩]
          [⟨"a", 0, 5⟩, ⟨"b", 0, 5⟩]) ∧
      (merge_all false false false
          [⟨"a", 0, 1⟩, ⟨"b", 0, 2⟩] [⟨"a", 0, 3⟩, ⟨"b", 0, 4⟩]
          [⟨"a", 0, 5⟩, ⟨"b", 0, 5⟩]).map (fun r => r.final_rank) =
        (List.range' 1 (joined false false false
          [⟨"a", 0, 1⟩, ⟨"b", 0, 2⟩] [⟨"a", 0, 3⟩, ⟨"b", 0, 4⟩]
          [⟨"a", 0, 5⟩, ⟨"b", 0, 5⟩]).length).map (fun k => ((k : Nat) : ℚ)))) :=
  ⟨by decide,
   merge_all_rerank_unique false false false
     [⟨"a", 0, 1⟩, ⟨"b", 0, 2⟩] [⟨"a", 0, 3⟩, ⟨"b", 0, 4⟩]
     [⟨"a", 0, 5⟩, ⟨"b", 0, 5⟩] (by decide)⟩

/-! ## C5 — `clean_stats_overall` ranks are a permutation of 1..N -/

/-- A strictly smaller count for a strictly smaller predicate with an
exhibited separating element. -/
theorem countP_strict_mono {α : Type} (p q : α → Bool) :
    ∀ (l : List α), (∀ a ∈ l, p a = true → q a = true) →
    ∀ a0 ∈ l, q a0 = true → p a0 = false → l.countP p < l.countP q := by
  intro l
  induction l with
  | nil => intro _ a0 h; simp at h
  | cons x t ih =>
    intro himp a0 ha0 hq hp
    rw [List.countP_cons, List.countP_cons]
    have hmono : t.countP p ≤ t.countP q :=
      List.countP_mono_left (fun a ha => himp a (List.mem_cons_of_mem _ ha))
    rcases List.mem_cons.mp ha0 with rfl | ha0t
    · rw [hp, hq]
      simp only [Bool.false_eq_true, if_false, if_true]
      omega
    · have hstrict := ih (fun a ha => himp a (List.mem_cons_of_mem _ ha)) a0 ha0t hq hp
      have hhead : (if p x = true then 1 else 0) ≤ (if q x = true then 1 else 0) := by
        by_cases hpx : p x = true
        · rw [if_pos hpx, if_pos (himp x (List.mem_cons_self _ _) hpx)]
        · rw [if_neg hpx]
          omega
      omega

/-- In a strictly sorted list, the number of elements smaller than the one in
position `i` is exactly `i`. -/
theorem countP_lt_get_of_pairwise {β : Type} [LinearOrder β] :
    ∀ (s : List β), List.Pairwise (· < ·) s → ∀ (i : Nat) (h : i < s.length),
      s.countP (fun b => decide (b < s.get ⟨i, h⟩)) = i := by
  intro s
  induction s with
  | nil => intro _ i h; simp at h
  | cons x t ih =>
    intro hp i h
    rcases i with _ | i
    · rw [List.countP_cons]
      have hx : decide (x < (x :: t).get ⟨0, h⟩) = false := by simp
      have ht : t.countP (fun b => decide (b < (x :: t).get ⟨0, h⟩)) = 0 := by
        rw [List.countP_eq_zero]
        intro b hb
        have hxb := (List.pairwise_cons.mp hp).1 b hb
        simp only [List.get]
        simpa using not_lt_of_lt hxb
      rw [hx, ht]
      simp
    · rw [List.countP_cons]
      have hget : (x :: t).get ⟨i + 1, h⟩ = t.get ⟨i, by simpa using h⟩ := rfl
      have hx : decide (x < (x :: t).get ⟨i + 1, h⟩) = true := by
        rw [hget]
        exact decide_eq_true ((List.pairwise_cons.mp hp).1 _
          (List.get_mem t _ _))
      have ht := ih (List.pairwise_cons.mp hp).2 i (by simpa using h)
      have ht' : t.countP (fun b => decide (b < (x :: t).get ⟨i + 1, h⟩)) = i := by
        rw [hget]
        exact ht
      rw [hx, ht']
      simp

/-- The "1 + number of strictly smaller elements" rank of a duplicate-free
list is a permutation of `1..N`. -/
theorem rank_one_add_count_perm {β : Type} [LinearOrder β] (l : List β)
    (hnd : l.Nodup) :
    (l.map (fun a => 1 + l.countP (fun b => decide (b < a)))).Perm
      (List.range' 1 l.length) := by
  have hp : (List.insertionSort (· ≤ ·) l).Perm l := List.perm_insertionSort _ l
  have hs : List.Sorted (· ≤ ·) (List.insertionSort (· ≤ ·) l) :=
    List.sorted_insertionSort _ l
  have hnds : (List.insertionSort (· ≤ ·) l).Nodup := hp.nodup_iff.mpr hnd
  have hstrict : List.Pairwise (· < ·) (List.insertionSort (· ≤ ·) l) :=
    (hs.and hnds).imp (fun hab => lt_of_le_of_ne hab.1 hab.2)
  have hmapcongr : (List.insertionSort (· ≤ ·) l).map
        (fun a => 1 + l.countP (fun b => decide (b < a))) =
      (List.insertionSort (· ≤ ·) l).map
        (fun a => 1 + (List.insertionSort (· ≤ ·) l).countP (fun b => decide (b < a))) := by
    apply List.map_congr_left
    intro a _
    rw [hp.countP_eq]
  have hsorted_eq : (List.insertionSort (· ≤ ·) l).map
        (fun a => 1 + (List.insertionSort (· ≤ ·) l).countP (fun b => decide (b < a))) =
      List.range' 1 l.length := by
    apply List.ext_get
    · simp [hp.length_eq]
    · intro i h1 h2
      simp only [List.get_eq_getElem, List.getElem_map]
      have hlen : i < (List.insertionSort (· ≤ ·) l).length := by
        simpa using h1
      have := countP_lt_get_of_pairwise _ hstrict i hlen
      simp only [List.get_eq_getElem] at this ⊢
      rw [show ((List.insertionSort (· ≤ ·) l).countP
          (fun b => decide (b < (List.insertionSort (· ≤ ·) l)[i]))) = i from this]
      rw [List.getElem_range']
      omega
  have h1 : (l.map (fun a => 1 + l.countP (fun b => decide (b < a)))).Perm
      ((List.insertionSort (· ≤ ·) l).map
        (fun a => 1 + l.countP (fun b => decide (b < a)))) :=
    (hp.map _).symm
  rw [hmapcongr, hsorted_eq] at h1
  exact h1

/-- The `method="first"` descending-rank predicate is the strict order of the
lexicographic key `(points descending, appearance index ascending)`. -/
theorem rank_pred_eq_key_lt (x y : Nat × ℚ) :
    (decide (y.2 > x.2) || (y.2 == x.2 && decide (y.1 < x.1))) =
      decide (toLex (OrderDual.toDual y.2, y.1) < toLex (OrderDual.toDual x.2, x.1)) := by
  by_cases h1 : x.2 < y.2 <;> by_cases h2 : y.2 = x.2 <;> by_cases h3 : y.1 < x.1 <;>
    simp [Prod.Lex.lt_iff, OrderDual.toDual_lt_toDual, h1, h2, h3, GT.gt]

theorem pairwise_fst_lt_enumFrom {α : Type} :
    ∀ (n : Nat) (l : List α),
      List.Pairwise (fun a b : Nat × α => a.1 < b.1) (List.enumFrom n l) := by
  intro n l
  induction l generalizing n with
  | nil => simp
  | cons x t ih =>
    simp only [List.enumFrom]
    rw [List.pairwise_cons]
    refine ⟨?_, ih (n + 1)⟩
    rintro ⟨i, a⟩ hmem
    have := (List.mem_enumFrom hmem).1
    omega

theorem rankFirstDesc_perm (ps : List ℚ) :
    (rankFirstDesc ps).Perm (List.range' 1 ps.length) := by
  have hrw : rankFirstDesc ps =
      (ps.enum.map (fun x : Nat × ℚ => toLex (OrderDual.toDual x.2, x.1))).map
        (fun a => 1 +
          (ps.enum.map (fun x : Nat × ℚ => toLex (OrderDual.toDual x.2, x.1))).countP
            (fun b => decide (b < a))) := by
    rw [List.map_map]
    unfold rankFirstDesc
    apply List.map_congr_left
    intro x _
    simp only [Function.comp_apply]
    congr 1
    rw [List.countP_map]
    apply List.countP_congr
    intro y _
    simp only [Function.comp_apply]
    rw [rank_pred_eq_key_lt x y]
  have hnd : (ps.enum.map (fun x : Nat × ℚ => toLex (OrderDual.toDual x.2, x.1))).Nodup := by
    apply List.Pairwise.map
    · intro a b hab hcon
      rw [toLex_inj] at hcon
      have h1 : a.1 < b.1 := hab
      have h2 : a.1 = b.1 := congrArg Prod.snd hcon
      omega
    · exact pairwise_fst_lt_enumFrom 0 ps
  have := rank_one_add_count_perm _ hnd
  rw [hrw]
  have hlen : (ps.enum.map (fun x : Nat × ℚ => toLex (OrderDual.toDual x.2, x.1))).length =
      ps.length := by simp
  rw [hlen] at this
  exact this

/-- C5: on any non-empty record set with a raw fantasy-points column,
`clean_stats_overall` outputs `final_rank` values that are exactly `1..N`
(the output is sorted by rank), the rank respects descending score, ties go
to the earlier row, and the spec's `[300, 250, 250]` scenario holds. -/
theorem clean_stats_overall_rank_permutation (rows : List StatsInRow)
    (h : rows ≠ []) :
    ((clean_stats_overall_pts rows).map (fun r => r.final_rank) =
      List.range' 1 rows.length) ∧
    (∀ i j, i < rows.length → j < rows.length →
      (rows.map (fun r => ptsValue r.pts)).getD i 0 >
        (rows.map (fun r => ptsValue r.pts)).getD j 0 →
      (rankFirstDesc (rows.map (fun r => ptsValue r.pts))).getD i 0 <
        (rankFirstDesc (rows.map (fun r => ptsValue r.pts))).getD j 0) ∧
    (∀ i j, i < j → j < rows.length →
      (rows.map (fun r => ptsValue r.pts)).getD i 0 =
        (rows.map (fun r => ptsValue r.pts)).getD j 0 →
      (rankFirstDesc (rows.map (fun r => ptsValue r.pts))).getD i 0 <
        (rankFirstDesc (rows.map (fun r => ptsValue r.pts))).getD j 0) ∧
    (clean_stats_overall_pts
        [⟨"A. Back (KC)", .num 300⟩, ⟨"B. Wide", .num 250⟩, ⟨"C. Slot", .num 250⟩] =
      [⟨"A. Back", 1⟩, ⟨"B. Wide", 2⟩, ⟨"C. Slot", 3⟩]) := by
  have hlenps : (rows.map (fun r => ptsValue r.pts)).length = rows.length :=
    List.length_map _ _
  have hlenrk : (rankFirstDesc (rows.map (fun r => ptsValue r.pts))).length =
      rows.length := by
    unfold rankFirstDesc
    simp
  refine ⟨?_, ?_, ?_, by decide⟩
  · -- the sorted output ranks are exactly 1..N
    unfold clean_stats_overall_pts
    haveI : IsTotal OverallRow (fun a b => a.final_rank ≤ b.final_rank) :=
      ⟨fun a b => Nat.le_total _ _⟩
    haveI : IsTrans OverallRow (fun a b => a.final_rank ≤ b.final_rank) :=
      ⟨fun _ _ _ hab hbc => Nat.le_trans hab hbc⟩
    have hpre : (((rows.map (fun r => String.mk (stripParenGreedy r.player.data))).zip
          (rankFirstDesc (rows.map (fun r => ptsValue r.pts)))).map
            (fun p => OverallRow.mk p.1 p.2)).map (fun r => r.final_rank) =
        rankFirstDesc (rows.map (fun r => ptsValue r.pts)) := by
      rw [List.map_map]
      have : ((fun r : OverallRow => r.final_rank) ∘ fun p : String × Nat =>
          OverallRow.mk p.1 p.2) = Prod.snd := rfl
      rw [this]
      apply List.map_snd_zip
      rw [hlenrk, List.length_map]
    have hperm : ((List.insertionSort (fun a b => a.final_rank ≤ b.final_rank)
          (((rows.map (fun r => String.mk (stripParenGreedy r.player.data))).zip
            (rankFirstDesc (rows.map (fun r => ptsValue r.pts)))).map
              (fun p => OverallRow.mk p.1 p.2))).map (fun r => r.final_rank)).Perm
        (List.range' 1 rows.length) := by
      refine ((List.perm_insertionSort _ _).map _).trans ?_
      rw [hpre]
      have := rankFirstDesc_perm (rows.map (fun r => ptsValue r.pts))
      rw [hlenps] at this
      exact this
    have hsorted : List.Sorted (· ≤ ·)
        ((List.insertionSort (fun a b => a.final_rank ≤ b.final_rank)
          (((rows.map (fun r => String.mk (stripParenGreedy r.player.data))).zip
            (rankFirstDesc (rows.map (fun r => ptsValue r.pts)))).map
              (fun p => OverallRow.mk p.1 p.2))).map (fun r => r.final_rank)) := by
      rw [List.Sorted, List.pairwise_map]
      exact List.sorted_insertionSort _ _
    exact List.eq_of_perm_of_sorted hperm hsorted
      ((List.pairwise_lt_range' _ _ 1).imp Nat.le_of_lt)
  · -- strictly better score gives strictly better rank
    intro i j hi hj hgt
    have hips : i < (rows.map (fun r => ptsValue r.pts)).length := by omega
    have hjps : j < (rows.map (fun r => ptsValue r.pts)).length := by omega
    have hien : i < (rows.map (fun r => ptsValue r.pts)).enum.length := by
      simpa using hips
    have hjen : j < (rows.map (fun r => ptsValue r.pts)).enum.length := by
      simpa using hjps
    rw [List.getD_eq_getElem _ _ hips, List.getD_eq_getElem _ _ hjps] at hgt
    simp only [List.getElem_map] at hgt
    rw [List.getD_eq_getElem _ _ (by rw [hlenrk]; omega),
        List.getD_eq_getElem _ _ (by rw [hlenrk]; omega)]
    unfold rankFirstDesc
    simp only [List.getElem_map, List.getElem_enum]
    have hstrict := countP_strict_mono
      (fun y : Nat × ℚ => decide (y.2 > ptsValue rows[i].pts) ||
        (y.2 == ptsValue rows[i].pts && decide (y.1 < i)))
      (fun y : Nat × ℚ => decide (y.2 > ptsValue rows[j].pts) ||
        (y.2 == ptsValue rows[j].pts && decide (y.1 < j)))
      (rows.map (fun r => ptsValue r.pts)).enum
      (by
        rintro ⟨k, q⟩ _ hpk
        simp only [Bool.or_eq_true, decide_eq_true_eq, Bool.and_eq_true,
          beq_iff_eq] at hpk ⊢
        rcases hpk with hq | ⟨hq, _⟩
        · exact Or.inl (lt_trans hgt hq)
        · exact Or.inl (by rw [hq]; exact hgt))
      ((i, ptsValue rows[i].pts))
      (by
        have := List.getElem_enum (rows.map (fun r => ptsValue r.pts)) i hien
        simp only [List.getElem_map] at this
        rw [← this]
        exact List.getElem_mem hien)
      (by
        simp only [Bool.or_eq_true, decide_eq_true_eq]
        exact Or.inl hgt)
      (by
        simp only [Bool.or_eq_true, decide_eq_true_eq, Bool.and_eq_true,
          beq_iff_eq, Bool.or_eq_false_iff]
        constructor
        · simp [GT.gt]
        · simp)
    exact Nat.add_lt_add_left hstrict 1
  · -- equal scores: the earlier row ranks strictly better
    intro i j hij hj heq
    have hi : i < rows.length := by omega
    have hips : i < (rows.map (fun r => ptsValue r.pts)).length := by omega
    have hjps : j < (rows.map (fun r => ptsValue r.pts)).length := by omega
    have hien : i < (rows.map (fun r => ptsValue r.pts)).enum.length := by
      simpa using hips
    rw [List.getD_eq_getElem _ _ hips, List.getD_eq_getElem _ _ hjps] at heq
    simp only [List.getElem_map] at heq
    rw [List.getD_eq_getElem _ _ (by rw [hlenrk]; omega),
        List.getD_eq_getElem _ _ (by rw [hlenrk]; omega)]
    unfold rankFirstDesc
    simp only [List.getElem_map, List.getElem_enum]
    have hstrict := countP_strict_mono
      (fun y : Nat × ℚ => decide (y.2 > ptsValue rows[i].pts) ||
        (y.2 == ptsValue rows[i].pts && decide (y.1 < i)))
      (fun y : Nat × ℚ => decide (y.2 > ptsValue rows[j].pts) ||
        (y.2 == ptsValue rows[j].pts && decide (y.1 < j)))
      (rows.map (fun r => ptsValue r.pts)).enum
      (by
        rintro ⟨k, q⟩ _ hpk
        simp only [Bool.or_eq_true, decide_eq_true_eq, Bool.and_eq_true,
          beq_iff_eq] at hpk ⊢
        rcases hpk with hq | ⟨hq, hk⟩
        · exact Or.inl (by rw [← heq]; exact hq)
        · exact Or.inr ⟨by rw [hq, heq], by omega⟩)
      ((i, ptsValue rows[i].pts))
      (by
        have := List.getElem_enum (rows.map (fun r => ptsValue r.pts)) i hien
        simp only [List.getElem_map] at this
        rw [← this]
        exact List.getElem_mem hien)
      (by
        simp only [Bool.or_eq_true, decide_eq_true_eq, Bool.and_eq_true,
          beq_iff_eq]
        exact Or.inr ⟨heq, hij⟩)
      (by
        simp only [Bool.or_eq_true, decide_eq_true_eq, Bool.and_eq_true,
          beq_iff_eq, Bool.or_eq_false_iff]
        constructor
        · simp [GT.gt]
        · simp)
    exact Nat.add_lt_add_left hstrict 1

/-- C5 (witness): the theorem applied to the spec's three-row scenario. -/
theorem clean_stats_overall_rank_permutation_witness :
    ([(⟨"A. Back (KC)", .num 300⟩ : StatsInRow), ⟨"B. Wide", .num 250⟩,
      ⟨"C. Slot", .num 250⟩] ≠ []) ∧
    (((clean_stats_overall_pts
        [⟨"A. Back (KC)", .num 300⟩, ⟨"B. Wide", .num 250⟩,
         ⟨"C. Slot", .num 250⟩]).map (fun r => r.final_rank) =
      List.range' 1
        ([(⟨"A. Back (KC)", .num 300⟩ : StatsInRow), ⟨"B. Wide", .num 250⟩,
          ⟨"C. Slot", .num 250⟩].length)) ∧
    (∀ i j, i < ([(⟨"A. Back (KC)", .num 300⟩ : StatsInRow), ⟨"B. Wide", .num 250⟩,
          ⟨"C. Slot", .num 250⟩].length) →
      j < ([(⟨"A. Back (KC)", .num 300⟩ : StatsInRow), ⟨"B. Wide", .num 250⟩,
          ⟨"C. Slot", .num 250⟩].length) →
      ([(⟨"A. Back (KC)", .num 300⟩ : StatsInRow), ⟨"B. Wide", .num 250⟩,
          ⟨"C. Slot", .num 250⟩].map (fun r => ptsValue r.pts)).getD i 0 >
        ([(⟨"A. Back (KC)", .num 300⟩ : StatsInRow), ⟨"B. Wide", .num 250⟩,
          ⟨"C. Slot", .num 250⟩].map (fun r => ptsValue r.pts)).getD j 0 →
      (rankFirstDesc ([(⟨"A. Back (KC)", .num 300⟩ : StatsInRow), ⟨"B. Wide", .num 250⟩,
          ⟨"C. Slot", .num 250⟩].map (fun r => ptsValue r.pts))).getD i 0 <
        (rankFirstDesc ([(⟨"A. Back (KC)", .num 300⟩ : StatsInRow), ⟨"B. Wide", .num 250⟩,
          ⟨"C. Slot", .num 250⟩].map (fun r => ptsValue r.pts))).getD j 0) ∧
    (∀ i j, i < j →
      j < ([(⟨"A. Back (KC)", .num 300⟩ : StatsInRow), ⟨"B. Wide", .num 250⟩,
          ⟨"C. Slot", .num 250⟩].length) →
      ([(⟨"A. Back (KC)", .num 300⟩ : StatsInRow), ⟨"B. Wide", .num 250⟩,
          ⟨"C. Slot", .num 250⟩].map (fun r => ptsValue r.pts)).getD i 0 =
        ([(⟨"A. Back (KC)", .num 300⟩ : StatsInRow), ⟨"B. Wide", .num 250⟩,
          ⟨"C. Slot", .num 250⟩].map (fun r => ptsValue r.pts)).getD j 0 →
      (rankFirstDesc ([(⟨"A. Back (KC)", .num 300⟩ : StatsInRow), ⟨"B. Wide", .num 250⟩,
          ⟨"C. Slot", .num 250⟩].map (fun r => ptsValue r.pts))).getD i 0 <
        (rankFirstDesc ([(⟨"A. Back (KC)", .num 300⟩ : StatsInRow), ⟨"B. Wide", .num 250⟩,
          ⟨"C. Slot", .num 250⟩].map (fun r => ptsValue r.pts))).getD j 0) ∧
    (clean_stats_overall_pts
        [⟨"A. Back (KC)", .num 300⟩, ⟨"B. Wide", .num 250⟩, ⟨"C. Slot", .num 250⟩] =
      [⟨"A. Back", 1⟩, ⟨"B. Wide", 2⟩, ⟨"C. Slot", 3⟩])) :=
  ⟨by decide,
   clean_stats_overall_rank_permutation
     [⟨"A. Back (KC)", .num 300⟩, ⟨"B. Wide", .num 250⟩, ⟨"C. Slot", .num 250⟩]
     (by decide)⟩

/-! ## C7 — the top-K hit rate is the set overlap over the position-keyed K -/

/-- C7: every metric row of `evaluate_one` carries `K` looked up in the
position map (default 12) and a hit rate equal to
`|predicted_topK ∩ actual_topK| / K`; the overlap measure is symmetric
(order-insensitive); and the spec's `K = 2` scenario gives `1/2`. -/
theorem evaluate_one_hit_rate_set_overlap (d : EvalDf) (posU : String)
    (m : List (String × Nat)) :
    ((evaluate_one d posU m).map (fun r => (r.model, r.topX, r.hit_rate_topX)) =
      if d.rows.isEmpty then []
      else (predsOf d).map (fun p =>
        (p.1, (m.lookup posU).getD 12,
         spec_hit_rate (topIdx p.2 d.rows ((m.lookup posU).getD 12))
           (finalTopIdx d.rows ((m.lookup posU).getD 12))
           ((m.lookup posU).getD 12)))) ∧
    (∀ (P A : Finset Nat) (K : Nat), spec_hit_rate P A K = spec_hit_rate A P K) ∧
    ((evaluate_one
        ⟨false, false, false,
         [⟨2020, "ppr", some 1, none, none, none, 3⟩,
          ⟨2020, "ppr", some 2, none, none, none, 1⟩,
          ⟨2020, "ppr", some 3, none, none, none, 2⟩]⟩ "WR" [("WR", 2)]).map
      (fun r => r.hit_rate_topX) = [1 / 2]) := by
  refine ⟨?_, ?_, ?_⟩
  · rcases hrows : d.rows with _ | ⟨r0, rest⟩
    · simp [evaluate_one, hrows]
    · unfold evaluate_one
      rw [hrows]
      have hne : ((r0 :: rest : List EvalRow).isEmpty) = false := rfl
      rw [← hrows]
      simp only [hrows, hne, Bool.false_eq_true, if_false]
      rw [List.map_map]
      apply List.map_congr_left
      intro p _
      rfl
  · intro P A K
    unfold spec_hit_rate
    rw [Finset.inter_comm]
  · have hc : ((topIdx (fun r => r.ecr_rank)
        [⟨2020, "ppr", some 1, none, none, none, 3⟩,
         ⟨2020, "ppr", some 2, none, none, none, 1⟩,
         ⟨2020, "ppr", some 3, none, none, none, 2⟩] 2) ∩
      (finalTopIdx
        [⟨2020, "ppr", some 1, none, none, none, 3⟩,
         ⟨2020, "ppr", some 2, none, none, none, 1⟩,
         ⟨2020, "ppr", some 3, none, none, none, 2⟩] 2)).card = 1 := by decide
    unfold evaluate_one
    simp only [predsOf, Bool.false_eq_true, if_false, List.append_nil,
      List.map_cons, List.map_nil, List.lookup]
    have hWR : ("WR" == "WR") = true := by decide
    simp only [hWR, Option.getD_some]
    rw [hc]
    norm_num

/-! ## C8 — designated numeric columns coerce, never raise -/

theorem coerce_numOrNa : ∀ c, numOrNa (toNumericCoerce c) = true := by
  intro c
  cases c with
  | num q => rfl
  | na => rfl
  | str s =>
    simp only [toNumericCoerce]
    cases parsePyNumber s with
    | none => rfl
    | some q => rfl

theorem coerceCols_designated (p : String → Bool) (t : Table) :
    ∀ col ∈ coerceCols p t, p col.name = true →
      ∀ c ∈ col.cells, numOrNa c = true := by
  intro col hcol
  unfold coerceCols at hcol
  rw [List.mem_map] at hcol
  obtain ⟨pre, hpre, rfl⟩ := hcol
  by_cases hb : p pre.name = true
  · rw [if_pos hb]
    intro _ c hc
    have hc2 : c ∈ pre.cells.map toNumericCoerce := hc
    rw [List.mem_map] at hc2
    obtain ⟨c0, _, rfl⟩ := hc2
    exact coerce_numOrNa c0
  · rw [if_neg hb]
    intro hp
    exact absurd hp hb

theorem setCol_pres (n : String) (cs : List Cell) (t : Table) (desig : String → Bool)
    (hd : desig n = false ∨ ∀ c ∈ cs, numOrNa c = true)
    (ht : ∀ col ∈ t, desig col.name = true → ∀ c ∈ col.cells, numOrNa c = true) :
    ∀ col ∈ setCol n cs t, desig col.name = true →
      ∀ c ∈ col.cells, numOrNa c = true := by
  intro col hcol hdes c hc
  unfold setCol at hcol
  by_cases hhas : hasCol t n = true
  · rw [if_pos hhas] at hcol
    rw [List.mem_map] at hcol
    obtain ⟨pre, hpre, rfl⟩ := hcol
    by_cases hn : pre.name = n
    · rw [if_pos hn] at hdes hc
      have hdes2 : desig pre.name = true := hdes
      have hc2 : c ∈ cs := hc
      rcases hd with hd | hd
      · rw [hn] at hdes2
        rw [hd] at hdes2
        exact absurd hdes2 (by decide)
      · exact hd c hc2
    · rw [if_neg hn] at hdes hc
      exact ht pre hpre hdes c hc
  · rw [if_neg hhas] at hcol
    rcases List.mem_append.mp hcol with hcol | hcol
    · exact ht col hcol hdes c hc
    · have hcol2 : col = ⟨n, cs⟩ := by simpa using hcol
      subst hcol2
      have hdes2 : desig n = true := hdes
      have hc2 : c ∈ cs := hc
      rcases hd with hd | hd
      · rw [hd] at hdes2
        exact absurd hdes2 (by decide)
      · exact hd c hc2

theorem addContext_pres (year : Int) (scoring pos url : String)
    (desig : String → Bool) (h1 : desig "scoring" = false)
    (h2 : desig "pos_slug" = false) (h3 : desig "source_url" = false)
    (t : Table)
    (ht : ∀ col ∈ t, desig col.name = true → ∀ c ∈ col.cells, numOrNa c = true) :
    ∀ col ∈ addContextCols year scoring pos url t, desig col.name = true →
      ∀ c ∈ col.cells, numOrNa c = true := by
  unfold addContextCols
  apply setCol_pres _ _ _ _ (Or.inl h3)
  apply setCol_pres _ _ _ _ (Or.inl h2)
  apply setCol_pres _ _ _ _ (Or.inl h1)
  apply setCol_pres _ _ _ _ (Or.inr ?_) ht
  intro c hc
  have hce : c = Cell.num (year : ℚ) := List.eq_of_mem_replicate hc
  subst hce
  rfl

theorem reorderCore_sub (names : List String) (t : Table) :
    ∀ col ∈ reorderCore names t, col ∈ t := by
  intro col hcol
  simp only [reorderCore, selectCols] at hcol
  rcases List.mem_append.mp hcol with hcol | hcol
  · rw [List.mem_filterMap] at hcol
    obtain ⟨n, _, hfind⟩ := hcol
    exact List.mem_of_find?_eq_some hfind
  · exact (List.mem_filter.mp hcol).1

theorem inv_pipeline (desig : String → Bool) (names : List String) (year : Int)
    (scoring pos url : String) (h1 : desig "scoring" = false)
    (h2 : desig "pos_slug" = false) (h3 : desig "source_url" = false) (t : Table) :
    ∀ col ∈ reorderCore names (addContextCols year scoring pos url
      (coerceCols desig t)), desig col.name = true →
      ∀ c ∈ col.cells, numOrNa c = true := by
  intro col hcol
  exact addContext_pres year scoring pos url desig h1 h2 h3 _
    (coerceCols_designated desig t) col (reorderCore_sub names _ col hcol)

/-- C8: numeric coercion of the designated columns is total and silent in all
three normalizers: an unparseable cell becomes NaN where the pandas default
(`errors="raise"`) would have raised; coercion only ever yields a number or a
missing value; and after normalization every cell of every designated column
(`fantasy_points`/`fantasy_points_per_game`/`games` for stats, the `adp_*`
family for ADP, and `ecr_rank`/`ecr` for ECR) is numeric-or-missing, never a
raw string and never an error. -/
theorem normalize_numeric_coercion (t : Table) (pos scoring : String)
    (year : Int) (url : String) :
    (∀ cell e, toNumericRaise cell = .error e → toNumericCoerce cell = Cell.na) ∧
    (∀ cell, toNumericCoerce cell = Cell.na ∨
      ∃ q, toNumericCoerce cell = Cell.num q) ∧
    (∀ col ∈ normalize_stats_df t pos year scoring url,
      (col.name = "fantasy_points" || col.name = "fantasy_points_per_game" ||
        col.name = "games") = true → ∀ c ∈ col.cells, numOrNa c = true) ∧
    (∀ col ∈ normalize_adp_df t pos scoring year url,
      isPre "adp_".data col.name.data = true → ∀ c ∈ col.cells, numOrNa c = true) ∧
    (∀ col ∈ normalize_ecr_df t pos scoring year url,
      (col.name = "ecr_rank" || col.name = "ecr") = true →
        ∀ c ∈ col.cells, numOrNa c = true) := by
  refine ⟨?_, ?_, ?_, ?_, ?_⟩
  · intro cell e herr
    cases cell with
    | num q => simp [toNumericRaise] at herr
    | na => simp [toNumericRaise] at herr
    | str s =>
      simp only [toNumericRaise] at herr
      simp only [toNumericCoerce]
      cases hp : parsePyNumber s with
      | none => rfl
      | some q =>
        rw [hp] at herr
        simp at herr
  · intro cell
    cases cell with
    | num q => exact Or.inr ⟨q, rfl⟩
    | na => exact Or.inl rfl
    | str s =>
      simp only [toNumericCoerce]
      cases hp : parsePyNumber s with
      | none => exact Or.inl rfl
      | some q => exact Or.inr ⟨q, rfl⟩
  · exact inv_pipeline
      (fun n => n = "fantasy_points" || n = "fantasy_points_per_game" || n = "games")
      _ year scoring pos url (by decide) (by decide) (by decide) _
  · exact inv_pipeline (fun n => isPre "adp_".data n.data)
      _ year scoring pos url (by decide) (by decide) (by decide) _
  · exact inv_pipeline (fun n => n = "ecr_rank" || n = "ecr")
      _ year scoring pos url (by decide) (by decide) (by decide) _

/-- C8 (witness): the pandas default would raise on the cell `"BYE"`; the
coercion used by the normalizers maps it to NaN instead. -/
theorem normalize_numeric_coercion_witness :
    (toNumericRaise (Cell.str "BYE") = Except.error "Unable to parse string BYE") ∧
    toNumericCoerce (Cell.str "BYE") = Cell.na :=
  ⟨rfl,
   (normalize_numeric_coercion [] "qb" "ppr" 2020 "u").1 (Cell.str "BYE")
     "Unable to parse string BYE" rfl⟩

theorem lowerChar_cases (c : Char) :
    lowerChar c = c ∨ c ∈ ['A', 'B', 'C', 'D', 'E', 'F', 'G', 'H', 'I', 'J',
      'K', 'L', 'M', 'N', 'O', 'P', 'Q', 'R', 'S', 'T', 'U', 'V', 'W', 'X',
      'Y', 'Z'] := by
  unfold lowerChar
  split <;> first | exact Or.inr (by decide) | exact Or.inl rfl

theorem lowerChar_idem (c : Char) : lowerChar (lowerChar c) = lowerChar c := by
  rcases lowerChar_cases c with h | h
  · rw [h]
    exact h
  · simp only [List.mem_cons, List.not_mem_nil, or_false] at h
    rcases h with h|h|h|h|h|h|h|h|h|h|h|h|h|h|h|h|h|h|h|h|h|h|h|h|h|h <;>
      subst h <;> decide

theorem pyIsSpace_lowerChar (c : Char) : pyIsSpace (lowerChar c) = pyIsSpace c := by
  rcases lowerChar_cases c with h | h
  · rw [h]
  · simp only [List.mem_cons, List.not_mem_nil, or_false] at h
    rcases h with h|h|h|h|h|h|h|h|h|h|h|h|h|h|h|h|h|h|h|h|h|h|h|h|h|h <;>
      subst h <;> decide

theorem allowedChar_lowerChar (c : Char) (h : allowedChar c = true) :
    allowedChar (lowerChar c) = true := by
  rcases lowerChar_cases c with hc | hc
  · rw [hc]
    exact h
  · simp only [List.mem_cons, List.not_mem_nil, or_false] at hc
    rcases hc with hc|hc|hc|hc|hc|hc|hc|hc|hc|hc|hc|hc|hc|hc|hc|hc|hc|hc|hc|hc|hc|hc|hc|hc|hc|hc <;>
      subst hc <;> decide

theorem allowed_space_eq (c : Char) (ha : allowedChar c = true)
    (hs : pyIsSpace c = true) : c = ' ' := by
  simp only [pyIsSpace, Bool.or_eq_true, decide_eq_true_eq] at hs
  rcases hs with ((((h | h) | h) | h) | h) | h
  · exact h
  all_goals (subst h; exact absurd ha (by decide))

theorem parenAfterOpen_ne (c : Char) (rest : List Char) (h : ¬c = '(') :
    parenAfterOpen (c :: rest) = false := by
  unfold parenAfterOpen
  split
  · simp_all
  · rfl

theorem spacesThenParen_no_paren (l : List Char) (h : ∀ c ∈ l, ¬c = '(') :
    spacesThenParen l = false := by
  induction l with
  | nil => rfl
  | cons c rest ih =>
    simp only [spacesThenParen]
    by_cases hc : pyIsSpace c = true
    · rw [if_pos hc]
      exact ih (fun d hd => h d (List.mem_cons_of_mem c hd))
    · rw [if_neg hc]
      exact parenAfterOpen_ne c rest (h c (List.mem_cons_self c rest))

theorem stripParenLazy_no_paren (l : List Char) (h : ∀ c ∈ l, ¬c = '(') :
    stripParenLazy l = l := by
  induction l with
  | nil => rfl
  | cons c rest ih =>
    simp only [stripParenLazy]
    rw [spacesThenParen_no_paren rest (fun d hd => h d (List.mem_cons_of_mem c hd))]
    simp only [Bool.and_false, Bool.false_eq_true, if_false]
    rw [ih (fun d hd => h d (List.mem_cons_of_mem c hd))]

theorem collapseGo_mem (b : Bool) (l : List Char) :
    ∀ c ∈ collapseGo b l, c = ' ' ∨ c ∈ l := by
  induction l generalizing b with
  | nil => intro c hc; exact absurd hc (by simp [collapseGo])
  | cons a rest ih =>
    intro c hc
    simp only [collapseGo] at hc
    by_cases ha : pyIsSpace a = true
    · rw [if_pos ha] at hc
      cases b with
      | true =>
        rw [if_pos rfl] at hc
        rcases ih true c hc with h | h
        · exact Or.inl h
        · exact Or.inr (List.mem_cons_of_mem a h)
      | false =>
        simp only [Bool.false_eq_true, if_false, List.mem_cons] at hc
        rcases hc with h | h
        · exact Or.inl h
        · rcases ih true c h with h2 | h2
          · exact Or.inl h2
          · exact Or.inr (List.mem_cons_of_mem a h2)
    · rw [if_neg ha] at hc
      rcases List.mem_cons.mp hc with h | h
      · exact Or.inr (h ▸ List.mem_cons_self a rest)
      · rcases ih false c h with h2 | h2
        · exact Or.inl h2
        · exact Or.inr (List.mem_cons_of_mem a h2)

theorem collapseGo_headNoSpace (l : List Char) :
    headNoSpace (collapseGo true l) = true := by
  induction l with
  | nil => rfl
  | cons a rest ih =>
    simp only [collapseGo]
    by_cases ha : pyIsSpace a = true
    · rw [if_pos ha]
      simp only [if_true]
      exact ih
    · rw [if_neg ha]
      simp only [headNoSpace]
      rw [eq_false_of_ne_true ha]
      rfl

theorem noDbl_cons (a : Char) (x : List Char) (h1 : noDbl x = true)
    (h2 : pyIsSpace a = false ∨ headNoSpace x = true) : noDbl (a :: x) = true := by
  cases x with
  | nil => rfl
  | cons b t =>
    simp only [noDbl, Bool.and_eq_true]
    refine ⟨?_, h1⟩
    rcases h2 with h | h
    · simp [h]
    · simp only [headNoSpace] at h
      have h3 : pyIsSpace b = false := by simpa using h
      simp [h3]

theorem collapseGo_noDbl (b : Bool) (l : List Char) :
    noDbl (collapseGo b l) = true := by
  induction l generalizing b with
  | nil => rfl
  | cons a rest ih =>
    simp only [collapseGo]
    by_cases ha : pyIsSpace a = true
    · rw [if_pos ha]
      cases b with
      | true => rw [if_pos rfl]; exact ih true
      | false =>
        simp only [Bool.false_eq_true, if_false]
        exact noDbl_cons ' ' _ (ih true) (Or.inr (collapseGo_headNoSpace rest))
    · rw [if_neg ha]
      exact noDbl_cons a _ (ih false) (Or.inl (eq_false_of_ne_true ha))

theorem collapseGo_true_of_headNoSpace (l : List Char) (h : headNoSpace l = true) :
    collapseGo true l = collapseGo false l := by
  cases l with
  | nil => rfl
  | cons a rest =>
    simp only [headNoSpace] at h
    have ha : pyIsSpace a = false := by simpa using h
    simp only [collapseGo]
    rw [if_neg (by simp [ha])]
    rw [if_neg (by simp [ha])]

theorem collapseGo_id (l : List Char) (hd : noDbl l = true)
    (hs : ∀ c ∈ l, pyIsSpace c = true → c = ' ') : collapseGo false l = l := by
  induction l with
  | nil => rfl
  | cons a rest ih =>
    have hdr : noDbl rest = true := by
      cases rest with
      | nil => rfl
      | cons b t => exact (Bool.and_eq_true _ _ |>.mp hd).2
    by_cases ha : pyIsSpace a = true
    · have h1 : a = ' ' := hs a (List.mem_cons_self a rest) ha
      have hhr : headNoSpace rest = true := by
        cases rest with
        | nil => rfl
        | cons b t =>
          have hb := (Bool.and_eq_true _ _ |>.mp hd).1
          rw [ha] at hb
          have hb2 : pyIsSpace b = false := by simpa using hb
          simp [headNoSpace, hb2]
      simp only [collapseGo, if_pos ha, Bool.false_eq_true, if_false]
      rw [collapseGo_true_of_headNoSpace rest hhr]
      rw [ih hdr (fun c hc h2 => hs c (List.mem_cons_of_mem a hc) h2), h1]
  -- a non-space
    · simp only [collapseGo, if_neg ha]
      rw [ih hdr (fun c hc h2 => hs c (List.mem_cons_of_mem a hc) h2)]

theorem dropWhile_headNoSpace (l : List Char) :
    headNoSpace (l.dropWhile pyIsSpace) = true := by
  induction l with
  | nil => rfl
  | cons a rest ih =>
    rw [List.dropWhile_cons]
    by_cases ha : pyIsSpace a = true
    · rw [if_pos ha]
      exact ih
    · rw [if_neg ha]
      simp [headNoSpace, eq_false_of_ne_true ha]

theorem noDbl_tail (a : Char) (x : List Char) (h : noDbl (a :: x) = true) :
    noDbl x = true := by
  cases x with
  | nil => rfl
  | cons b t => exact (Bool.and_eq_true _ _ |>.mp h).2

theorem dropWhile_noDbl (l : List Char) (h : noDbl l = true) :
    noDbl (l.dropWhile pyIsSpace) = true := by
  induction l with
  | nil => rfl
  | cons a rest ih =>
    rw [List.dropWhile_cons]
    by_cases ha : pyIsSpace a = true
    · rw [if_pos ha]
      exact ih (noDbl_tail a rest h)
    · rw [if_neg ha]
      exact h

theorem dts_shape (c : Char) (xs : List Char) :
    dropTrailingSpaces (c :: xs) = [] ∨
      ∃ r, dropTrailingSpaces (c :: xs) = c :: r := by
  simp only [dropTrailingSpaces]
  cases h : dropTrailingSpaces xs with
  | nil =>
    by_cases hc : pyIsSpace c = true
    · rw [if_pos hc]
      exact Or.inl rfl
    · rw [if_neg hc]
      exact Or.inr ⟨[], rfl⟩
  | cons r rs => exact Or.inr ⟨r :: rs, rfl⟩

theorem dts_sublist (l : List Char) : List.Sublist (dropTrailingSpaces l) l := by
  induction l with
  | nil => exact List.Sublist.refl []
  | cons c rest ih =>
    simp only [dropTrailingSpaces]
    cases h : dropTrailingSpaces rest with
    | nil =>
      by_cases hc : pyIsSpace c = true
      · rw [if_pos hc]
        exact List.nil_sublist _
      · rw [if_neg hc]
        exact (List.nil_sublist rest).cons₂ c
    | cons r rs =>
      rw [h] at ih
      exact ih.cons₂ c

theorem dts_noDbl (l : List Char) (h : noDbl l = true) :
    noDbl (dropTrailingSpaces l) = true := by
  induction l with
  | nil => rfl
  | cons c rest ih =>
    simp only [dropTrailingSpaces]
    cases hr : dropTrailingSpaces rest with
    | nil =>
      by_cases hc : pyIsSpace c = true
      · rw [if_pos hc]
        rfl
      · rw [if_neg hc]
        rfl
    | cons r rs =>
      cases rest with
      | nil => simp [dropTrailingSpaces] at hr
      | cons d ds =>
        have ihr := ih (noDbl_tail c _ h)
        rw [hr] at ihr
        rcases dts_shape d ds with h0 | ⟨r0, h0⟩
        · rw [h0] at hr
          exact absurd hr (by simp)
        · rw [h0] at hr
          have hd : d = r := (List.cons.injEq _ _ _ _ |>.mp hr).1
          subst hd
          apply noDbl_cons c _ ihr
          have h1 := (Bool.and_eq_true _ _ |>.mp h).1
          by_cases hc : pyIsSpace c = true
          · rw [hc] at h1
            have h2 : pyIsSpace d = false := by simpa using h1
            exact Or.inr (by simp [headNoSpace, h2])
          · exact Or.inl (eq_false_of_ne_true hc)

theorem dts_lastNoSpace (l : List Char) :
    lastNoSpace (dropTrailingSpaces l) = true := by
  induction l with
  | nil => rfl
  | cons c rest ih =>
    simp only [dropTrailingSpaces]
    cases hr : dropTrailingSpaces rest with
    | nil =>
      by_cases hc : pyIsSpace c = true
      · rw [if_pos hc]
        rfl
      · rw [if_neg hc]
        simp [lastNoSpace, eq_false_of_ne_true hc]
    | cons r rs =>
      rw [hr] at ih
      simpa [lastNoSpace] using ih

theorem dts_headNoSpace (l : List Char) (h : headNoSpace l = true) :
    headNoSpace (dropTrailingSpaces l) = true := by
  cases l with
  | nil => rfl
  | cons c xs =>
    rcases dts_shape c xs with h0 | ⟨r, h0⟩
    · rw [h0]
      rfl
    · rw [h0]
      simpa [headNoSpace] using h

theorem dts_id (l : List Char) (h : lastNoSpace l = true) :
    dropTrailingSpaces l = l := by
  induction l with
  | nil => rfl
  | cons c rest ih =>
    simp only [dropTrailingSpaces]
    cases rest with
    | nil =>
      simp only [dropTrailingSpaces]
      simp only [lastNoSpace] at h
      have hc : pyIsSpace c = false := by simpa using h
      rw [if_neg (by simp [hc])]
    | cons d ds =>
      have hr : dropTrailingSpaces (d :: ds) = d :: ds := by
        apply ih
        simpa [lastNoSpace] using h
      rw [hr]

theorem dropWhile_id (l : List Char) (h : headNoSpace l = true) :
    l.dropWhile pyIsSpace = l := by
  cases l with
  | nil => rfl
  | cons c rest =>
    rw [List.dropWhile_cons]
    simp only [headNoSpace] at h
    have hc : pyIsSpace c = false := by simpa using h
    rw [if_neg (by simp [hc])]

theorem noDbl_map_lower (l : List Char) (h : noDbl l = true) :
    noDbl (l.map lowerChar) = true := by
  induction l with
  | nil => rfl
  | cons a rest ih =>
    rw [List.map_cons]
    apply noDbl_cons _ _ (ih (noDbl_tail a rest h))
    cases rest with
    | nil => exact Or.inr rfl
    | cons b t =>
      have h1 := (Bool.and_eq_true _ _ |>.mp h).1
      by_cases ha : pyIsSpace a = true
      · rw [ha] at h1
        have h2 : pyIsSpace b = false := by simpa using h1
        refine Or.inr ?_
        simp [List.map_cons, headNoSpace, pyIsSpace_lowerChar, h2]
      · exact Or.inl (by rw [pyIsSpace_lowerChar]; exact eq_false_of_ne_true ha)

theorem headNoSpace_map_lower (l : List Char) (h : headNoSpace l = true) :
    headNoSpace (l.map lowerChar) = true := by
  cases l with
  | nil => rfl
  | cons a rest =>
    simp only [List.map_cons, headNoSpace, pyIsSpace_lowerChar]
    exact h

theorem lastNoSpace_map_lower (l : List Char) (h : lastNoSpace l = true) :
    lastNoSpace (l.map lowerChar) = true := by
  induction l with
  | nil => rfl
  | cons a rest ih =>
    cases rest with
    | nil =>
      simp only [List.map_cons, List.map_nil, lastNoSpace, pyIsSpace_lowerChar]
      simpa [lastNoSpace] using h
    | cons b t =>
      simp only [List.map_cons, lastNoSpace]
      have := ih (by simpa [lastNoSpace] using h)
      simpa [List.map_cons, lastNoSpace] using this

theorem cleanChars_invariant (l : List Char) :
    (∀ c ∈ cleanChars l, allowedChar c = true ∧ lowerChar c = c) ∧
    noDbl (cleanChars l) = true ∧ headNoSpace (cleanChars l) = true ∧
    lastNoSpace (cleanChars l) = true := by
  unfold cleanChars
  refine ⟨?_, ?_, ?_, ?_⟩
  · intro c hc
    unfold lowerAll at hc
    rw [List.mem_map] at hc
    obtain ⟨c0, hc0, rfl⟩ := hc
    have hmem : c0 ∈ collapseSpaces (filterAllowed
        (removeSuffixTokens (stripDst (stripParenLazy l)))) := by
      unfold stripEnds at hc0
      exact (List.dropWhile_sublist _).subset ((dts_sublist _).subset hc0)
    have hall : allowedChar c0 = true := by
      rcases collapseGo_mem false _ c0 hmem with h | h
      · rw [h]
        rfl
      · exact (List.mem_filter.mp h).2
    exact ⟨allowedChar_lowerChar c0 hall, lowerChar_idem c0⟩
  · exact noDbl_map_lower _ (dts_noDbl _ (dropWhile_noDbl _ (collapseGo_noDbl false _)))
  · exact headNoSpace_map_lower _ (dts_headNoSpace _ (dropWhile_headNoSpace _))
  · exact lastNoSpace_map_lower _ (dts_lastNoSpace _)

theorem cleanChars_fixed (t : List Char)
    (hinv : (∀ c ∈ t, allowedChar c = true ∧ lowerChar c = c) ∧
      noDbl t = true ∧ headNoSpace t = true ∧ lastNoSpace t = true)
    (h1 : stripDst t = t) (h2 : removeSuffixTokens t = t) :
    cleanChars t = t := by
  obtain ⟨hchar, hdbl, hhead, hlast⟩ := hinv
  unfold cleanChars
  rw [stripParenLazy_no_paren t (fun c hc heq => by
    have := (hchar c hc).1
    rw [heq] at this
    exact absurd this (by decide))]
  rw [h1, h2]
  unfold filterAllowed
  rw [List.filter_eq_self.mpr (fun c hc => (hchar c hc).1)]
  unfold collapseSpaces
  rw [collapseGo_id t hdbl (fun c hc hs => allowed_space_eq c (hchar c hc).1 hs)]
  unfold stripEnds
  rw [dropWhile_id t hhead, dts_id t hlast]
  unfold lowerAll
  exact (List.map_congr_left (fun c hc => (hchar c hc).2)).trans (List.map_id t)

/-- C2 (counterexample): `clean_name` is not idempotent — digits are deleted
by the character-class stage only after the suffix-token stage has run, so a
second application can find a fresh `jr` token: `clean_name "J2R" = "jr"` but
`clean_name "jr" = ""`. -/
theorem clean_name_not_idempotent :
    clean_name (clean_name "J2R") ≠ clean_name "J2R" := by decide

/-- C2 (amended): `clean_name` is idempotent on every input whose cleaned form
is already free of trailing-`D/ST` matches and of whole-word generational
suffix tokens (`jr`, `sr`, `iii`, `ii`); on such names
`clean_name (clean_name n) = clean_name n`.  (The unconditional claim is
false: stage 4 can create new suffix tokens by deleting characters, as in
`"J2R"`.) -/
theorem clean_name_idempotent_of_stable (n : String)
    (h1 : stripDst (cleanChars n.data) = cleanChars n.data)
    (h2 : removeSuffixTokens (cleanChars n.data) = cleanChars n.data) :
    clean_name (clean_name n) = clean_name n := by
  exact congrArg String.mk
    (cleanChars_fixed (cleanChars n.data) (cleanChars_invariant n.data) h1 h2)

/-- C2 (witness): the amended theorem applies to an ordinary name. -/
theorem clean_name_idempotent_of_stable_witness :
    (stripDst (cleanChars "John Smith".data) = cleanChars "John Smith".data) ∧
    (removeSuffixTokens (cleanChars "John Smith".data) = cleanChars "John Smith".data) ∧
    clean_name (clean_name "John Smith") = clean_name "John Smith" :=
  ⟨by decide, by decide,
   clean_name_idempotent_of_stable "John Smith" (by decide) (by decide)⟩
